import Mathlib

/-!
# MeshRTC: signaling relay and mesh orchestrator

A shallow embedding of `server/index.js` (the socket.io signaling relay) and of
`client/src/webrtc.js` (the `MeshRTC` orchestrator), followed by the properties
of the written specification that were checked against them.

Every handler is run to completion before the next event is taken, which is how
the Node event loop runs the synchronous relay handlers; the `async` client
handlers are embedded the same way, one message at a time.
-/

namespace Mesh

/-! ## JavaScript containers -/

/-- Method `Set.prototype.add` on an insertion-ordered `Set` of strings. -/
def setAdd (l : List String) (x : String) : List String :=
  if x ∈ l then l else l ++ [x]

/-- Method `Set.prototype.delete` on an insertion-ordered `Set` of strings. -/
def setDelete (l : List String) (x : String) : List String :=
  l.filter (fun y => y != x)

/-- Method `Map.prototype.set` on a map that is only ever read through `get`. -/
def upd {β : Type} (m : String → β) (k : String) (v : β) : String → β :=
  fun x => if x = k then v else m x

/-! ## The relay (`server/index.js`) -/

/-- The part of a socket the relay reads: `socket.data.name` (`none` is `undefined`). -/
structure SocketData where
  name : Option String
deriving DecidableEq, Repr

/-- The socket.io state the relay works on.
`rooms` is `io.sockets.adapter.rooms` (room name to its `Set` of socket ids, the
empty list standing for a missing entry), `sids` is the adapter's reverse map, read
through `socket.rooms`, and `sockets` is `io.sockets.sockets`. -/
structure Server where
  rooms : String → List String
  sids : String → List String
  sockets : String → Option SocketData

/-- The relay before any connection. -/
def Server.init : Server :=
  { rooms := fun _ => [], sids := fun _ => [], sockets := fun _ => none }

/-- Messages the relay emits to clients. -/
inductive ServerMsg where
  | errorMessage (text : String)
  | roomFull (roomId : String) (max : Int)
  | peers (list : List (String × String))
  | peerJoined (id name : String)
  | signal (sender type data : String)
  | peerLeft (id : String)
deriving DecidableEq, Repr

/-- What a client puts in a `signal` message. The relay destructures `to` (here `dest`), `type`
and `data` only; `sender` is a `from` field the client may have added. A missing field is
`undefined`, falsy like the empty string, and is written as the empty string. -/
structure SignalRequest where
  sender : Option String
  dest : String
  type : String
  data : String
deriving DecidableEq, Repr

/-- Events of the relay: a new connection under the id socket.io gave it, the two
client messages, and the transport-level disconnect. Room ids and names are strings, as
the wire protocol has them; a missing one reads as the empty string. -/
inductive ServerEvent where
  | connection (id : String)
  | join (c roomId name : String)
  | signal (c : String) (req : SignalRequest)
  | disconnect (c : String)
deriving DecidableEq, Repr

/-- Source `getRoomSize`: `room ? room.size : 0`. -/
def getRoomSize (s : Server) (roomId : String) : Nat :=
  (s.rooms roomId).length

/-- Library `socket.join(room)`: the adapter adds the socket to the room and the room to
the socket. -/
def socketJoin (s : Server) (c room : String) : Server :=
  { s with rooms := upd s.rooms room (setAdd (s.rooms room) c),
           sids := upd s.sids c (setAdd (s.sids c) room) }

/-- Library `socket.emit(msg)`. -/
def emitTo (c : String) (msg : ServerMsg) : List (String × ServerMsg) :=
  [(c, msg)]

/-- Library `socket.to(room).emit(msg)`: every member of the room but the socket itself. -/
def broadcastFrom (s : Server) (c room : String) (msg : ServerMsg) :
    List (String × ServerMsg) :=
  ((s.rooms room).filter (fun id => id != c)).map (fun id => (id, msg))

/-- Library `io.to(room).emit(msg)`: every member of the room. -/
def ioTo (s : Server) (room : String) (msg : ServerMsg) : List (String × ServerMsg) :=
  (s.rooms room).map (fun id => (id, msg))

/-- The expression `io.sockets.sockets.get(id)?.data?.name || 'Peer'`. -/
def peerName (s : Server) (id : String) : String :=
  match s.sockets id with
  | some d =>
    match d.name with
    | some n => if n = "" then "Peer" else n
    | none => "Peer"
  | none => "Peer"

/-- Library connection set-up: socket.io registers the socket and joins it to the room
named by its own id. The ids socket.io draws are fresh: an id that names an existing
room or socket is never handed out, so such an event does not occur. -/
def onConnection (s : Server) (id : String) : Server × List (String × ServerMsg) :=
  if s.rooms id = [] ∧ s.sockets id = none then
    (socketJoin { s with sockets := upd s.sockets id (some { name := none }) } id id, [])
  else (s, [])

/-- The expression `name || 'Anonymous'`. -/
def displayName (name : String) : String :=
  if name = "" then "Anonymous" else name

/-- Source `socket.on('join', ...)`. -/
def onJoin (MAX_PARTICIPANTS : Int) (s : Server) (c roomId name : String) :
    Server × List (String × ServerMsg) :=
  if roomId = "" then
    (s, emitTo c (.errorMessage "Room ID is required"))
  else
    let size := getRoomSize s roomId
    if (size : Int) ≥ MAX_PARTICIPANTS then
      (s, emitTo c (.roomFull roomId MAX_PARTICIPANTS))
    else
      let s1 := socketJoin s c roomId
      let myName := displayName name
      let s2 := { s1 with sockets := upd s1.sockets c (some { name := some myName }) }
      let peers := (s2.rooms roomId).filter (fun id => id != c)
      (s2, emitTo c (.peers (peers.map (fun id => (id, peerName s2 id))))
            ++ broadcastFrom s2 c roomId (.peerJoined c myName))

/-- Source `socket.on('signal', ...)`. -/
def onSignal (s : Server) (c : String) (req : SignalRequest) :
    Server × List (String × ServerMsg) :=
  if req.dest = "" ∨ req.type = "" then (s, [])
  else (s, ioTo s req.dest (.signal c req.type req.data))

/-- Source `socket.on('disconnecting', ...)`: the notices sent while the socket is still
in its rooms. -/
def onDisconnecting (s : Server) (c : String) : List (String × ServerMsg) :=
  ((s.sids c).filter (fun roomId => roomId != c)).flatMap
    (fun roomId => broadcastFrom s c roomId (.peerLeft c))

/-- Library `socket.leaveAll()` and removal of the socket, run after `disconnecting`. -/
def leaveAll (s : Server) (c : String) : Server :=
  { rooms := (s.sids c).foldl (fun m room => upd m room (setDelete (m room) c)) s.rooms,
    sids := upd s.sids c [],
    sockets := upd s.sockets c none }

/-- A disconnect: the `disconnecting` handler, then the library clean-up. -/
def onDisconnect (s : Server) (c : String) : Server × List (String × ServerMsg) :=
  (leaveAll s c, onDisconnecting s c)

/-- One relay event. Client messages and disconnects only come from connected sockets. -/
def Server.step (MAX_PARTICIPANTS : Int) (s : Server) :
    ServerEvent → Server × List (String × ServerMsg)
  | .connection id => onConnection s id
  | .join c roomId name =>
    if s.sockets c = none then (s, []) else onJoin MAX_PARTICIPANTS s c roomId name
  | .signal c req =>
    if s.sockets c = none then (s, []) else onSignal s c req
  | .disconnect c =>
    if s.sockets c = none then (s, []) else onDisconnect s c

/-- The relay state after a sequence of events. -/
def Server.run (MAX_PARTICIPANTS : Int) (s : Server) (evs : List ServerEvent) : Server :=
  evs.foldl (fun st e => (Server.step MAX_PARTICIPANTS st e).1) s

/-! ## The orchestrator (`client/src/webrtc.js`) -/

/-- A JavaScript `Map` with string keys: its entries in insertion order. -/
structure JsMap (β : Type) where
  entries : List (String × β)
deriving DecidableEq, Repr

/-- The empty map, `new Map()`. -/
def JsMap.empty {β : Type} : JsMap β := ⟨[]⟩

/-- Lookup in a list of entries. -/
def lookupEntry {β : Type} : List (String × β) → String → Option β
  | [], _ => none
  | (k, v) :: m, x => if k = x then some v else lookupEntry m x

/-- Replace the value under a key, or append the entry when the key is new. -/
def setEntry {β : Type} : List (String × β) → String → β → List (String × β)
  | [], x, v => [(x, v)]
  | (k, w) :: m, x, v => if k = x then (k, v) :: m else (k, w) :: setEntry m x v

/-- Method `Map.prototype.get`. -/
def JsMap.get {β : Type} (m : JsMap β) (k : String) : Option β :=
  lookupEntry m.entries k

/-- Method `Map.prototype.has`. -/
def JsMap.has {β : Type} (m : JsMap β) (k : String) : Bool :=
  (m.get k).isSome

/-- Method `Map.prototype.set`: an existing key keeps its place. -/
def JsMap.set {β : Type} (m : JsMap β) (k : String) (v : β) : JsMap β :=
  ⟨setEntry m.entries k v⟩

/-- Method `Map.prototype.delete`. -/
def JsMap.delete {β : Type} (m : JsMap β) (k : String) : JsMap β :=
  ⟨m.entries.filter (fun p => p.1 != k)⟩

/-- The keys of the map in iteration order. -/
def JsMap.keys {β : Type} (m : JsMap β) : List String :=
  m.entries.map Prod.fst

/-- What the orchestrator reads of an `RTCPeerConnection`, and which handlers it put on
it. `handle` names the object; `isInitiator` records whether `onnegotiationneeded` (and a
data channel) or `ondatachannel` was installed; `peerName` is captured by `ontrack`;
`remoteDescription` is `pc.remoteDescription` (`none` is `null`). -/
structure PeerConnection where
  handle : Nat
  isInitiator : Bool
  peerName : String
  remoteDescription : Option String
deriving DecidableEq, Repr

/-- Messages the client sends to the relay. -/
inductive ClientMsg where
  | join (roomId name : String)
  | signal (dest type data : String)
deriving DecidableEq, Repr

/-- Calls the orchestrator makes on its collaborators (transport engine, relay socket,
consumer callbacks, browser), in the order it makes them. -/
inductive Effect where
  | newPeerConnection (handle : Nat)
  | addTrack (handle : Nat) (track : String)
  | createDataChannel (handle : Nat) (channel : Nat)
  | createOffer (handle : Nat)
  | createAnswer (handle : Nat)
  | setLocalDescription (handle : Nat) (desc : String)
  | setRemoteDescription (handle : Nat) (desc : String)
  | addIceCandidate (handle : Nat) (candidate : String)
  | pcClose (handle : Nat)
  | dcClose (channel : Nat)
  | socketEmit (msg : ClientMsg)
  | socketClose
  | onPeerStream (id stream name : String)
  | onPeerLeft (id : String)
  | onPeerJoined (id name : String)
  | alert (text : String)
  | consoleError
deriving DecidableEq, Repr

/-- The connection a `pc.close()` call closed. -/
def Effect.closedHandle : Effect → Option Nat
  | .pcClose h => some h
  | _ => none

/-- Source `class MeshRTC`: the constructor arguments the code reads (`localStream` as the
list of its tracks, the three callbacks as whether they were supplied), the three maps,
`roomId` and `name`, a counter naming the objects the engine creates, and the record of
the calls made so far. -/
structure MeshRTC where
  localStream : Option (List String)
  onPeerStream : Bool
  onPeerLeft : Bool
  onPeerJoined : Bool
  peers : JsMap PeerConnection
  dataChannels : JsMap Nat
  candidateBuffer : JsMap (List String)
  roomId : Option String
  name : Option String
  nextHandle : Nat
  log : List Effect
deriving DecidableEq, Repr

/-- Source `constructor`. -/
def MeshRTC.new (localStream : Option (List String))
    (onPeerStream onPeerLeft onPeerJoined : Bool) : MeshRTC :=
  { localStream := localStream, onPeerStream := onPeerStream, onPeerLeft := onPeerLeft,
    onPeerJoined := onPeerJoined, peers := JsMap.empty, dataChannels := JsMap.empty,
    candidateBuffer := JsMap.empty, roomId := none, name := none, nextHandle := 0, log := [] }

/-- Append calls to the record. -/
def MeshRTC.call (s : MeshRTC) (es : List Effect) : MeshRTC :=
  { s with log := s.log ++ es }

/-- How the transport engine settles the promises a `signal` handler awaits:
whether `setRemoteDescription` fulfils, what `createAnswer` fulfils with (`none` when it
rejects) and whether `setLocalDescription` fulfils. -/
structure EngineReply where
  setRemoteOk : Bool
  answer : Option String
  setLocalOk : Bool
deriving DecidableEq, Repr

/-- Events of the orchestrator: the relay messages bound in `_bindSocket`, the events of
the peer connections and data channels it put handlers on, and the two calls of the page
(`join`, `closeAll`). An event of a peer connection is named by the peer id its handlers
were created for. -/
inductive ClientEvent where
  | errorMessage (msg : String)
  | roomFull (roomId : String) (max : Int)
  | peers (list : List (String × Option String))
  | peerJoined (id : String) (name : Option String)
  | signal (sender type data : String) (engine : EngineReply)
  | peerLeft (id : String)
  | track (peerId stream : String)
  | icecandidate (peerId : String) (candidate : Option String)
  | connectionstatechange (peerId connectionState : String)
  | datachannel (peerId : String) (channel : Nat)
  | negotiationneeded (peerId : String) (offer : Option String) (setLocalOk : Bool)
  | dataChannelClose (peerId : String)
  | join (roomId name : String)
  | closeAll
deriving DecidableEq, Repr

/-- Source `_setupDataChannel`. -/
def MeshRTC._setupDataChannel (s : MeshRTC) (peerId : String) (dc : Nat) : MeshRTC :=
  { s with dataChannels := s.dataChannels.set peerId dc }

/-- Source `_createConnection`; `peerName` is `none` when the argument is `undefined`. -/
def MeshRTC._createConnection (s : MeshRTC) (peerId : String) (isInitiator : Bool)
    (peerName : Option String) : MeshRTC :=
  if s.peers.has peerId then s
  else
    let pc : PeerConnection :=
      { handle := s.nextHandle, isInitiator := isInitiator,
        peerName := peerName.getD "Peer", remoteDescription := none }
    let s1 := { s with nextHandle := s.nextHandle + 1, peers := s.peers.set peerId pc }
    let s2 := s1.call [.newPeerConnection pc.handle]
    let s3 := match s2.localStream with
      | some tracks => s2.call (tracks.map (fun t => .addTrack pc.handle t))
      | none => s2
    if isInitiator then
      let dc := s3.nextHandle
      let s4 := { s3 with nextHandle := dc + 1 }
      (s4.call [.createDataChannel pc.handle dc])._setupDataChannel peerId dc
    else s3

/-- Source `_flushBufferedCandidates`. -/
def MeshRTC._flushBufferedCandidates (s : MeshRTC) (peerId : String) : MeshRTC :=
  match s.peers.get peerId with
  | none => s
  | some pc =>
    let buf := (s.candidateBuffer.get peerId).getD []
    let s1 := { s with candidateBuffer := s.candidateBuffer.delete peerId }
    s1.call (buf.map (fun c => .addIceCandidate pc.handle c))

/-- Source `_closePeer`. -/
def MeshRTC._closePeer (s : MeshRTC) (peerId : String) : MeshRTC :=
  let s1 := match s.peers.get peerId with
    | some pc => { s.call [.pcClose pc.handle] with peers := s.peers.delete peerId }
    | none => s
  let s2 := match s1.dataChannels.get peerId with
    | some dc => { s1.call [.dcClose dc] with dataChannels := s1.dataChannels.delete peerId }
    | none => s1
  { s2 with candidateBuffer := s2.candidateBuffer.delete peerId }

/-- Source `closeAll`. The loop runs over the live map; `_closePeer id` deletes the entry
being visited only, so every entry present at the start is visited once, in order. -/
def MeshRTC.closeAll (s : MeshRTC) : MeshRTC :=
  (s.peers.keys.foldl MeshRTC._closePeer s).call [.socketClose]

/-- Source `join`. -/
def MeshRTC.join (s : MeshRTC) (roomId name : String) : MeshRTC :=
  { s with roomId := some roomId, name := some name }.call [.socketEmit (.join roomId name)]

/-- Source `socket.on('peers', ...)`. -/
def MeshRTC.onPeers (s : MeshRTC) (list : List (String × Option String)) : MeshRTC :=
  list.foldl (fun st p => st._createConnection p.1 true p.2) s

/-- Source `socket.on('peer-joined', ...)`. -/
def MeshRTC.onPeerJoinedMsg (s : MeshRTC) (id : String) (name : Option String) : MeshRTC :=
  let s1 := if s.onPeerJoined then s.call [.onPeerJoined id (name.getD "")] else s
  s1._createConnection id false name

/-- Source `socket.on('signal', ...)`. A rejected promise ends the handler where it is
awaited. -/
def MeshRTC.onSignal (s : MeshRTC) (sender type data : String) (engine : EngineReply) :
    MeshRTC :=
  match s.peers.get sender with
  | none => s
  | some pc =>
    if type = "offer" then
      let s1 := s.call [.setRemoteDescription pc.handle data]
      if !engine.setRemoteOk then s1
      else
        let s2 := { s1 with
          peers := s1.peers.set sender { pc with remoteDescription := some data } }
        let s3 := s2.call [.createAnswer pc.handle]
        match engine.answer with
        | none => s3
        | some answer =>
          let s4 := s3.call [.setLocalDescription pc.handle answer]
          if !engine.setLocalOk then s4
          else
            let s5 := s4.call [.socketEmit (.signal sender "answer" answer)]
            s5._flushBufferedCandidates sender
    else if type = "answer" then
      let s1 := s.call [.setRemoteDescription pc.handle data]
      if !engine.setRemoteOk then s1
      else
        let s2 := { s1 with
          peers := s1.peers.set sender { pc with remoteDescription := some data } }
        s2._flushBufferedCandidates sender
    else if type = "ice-candidate" then
      if pc.remoteDescription.isSome then
        s.call [.addIceCandidate pc.handle data]
      else
        let buf := (s.candidateBuffer.get sender).getD []
        { s with candidateBuffer := s.candidateBuffer.set sender (buf ++ [data]) }
    else s

/-- Source `socket.on('peer-left', ...)`. -/
def MeshRTC.onPeerLeftMsg (s : MeshRTC) (id : String) : MeshRTC :=
  let s1 := s._closePeer id
  if s1.onPeerLeft then s1.call [.onPeerLeft id] else s1

/-- Source `pc.onnegotiationneeded`, installed on initiator connections only. -/
def MeshRTC.onNegotiationNeeded (s : MeshRTC) (peerId : String) (offer : Option String)
    (setLocalOk : Bool) : MeshRTC :=
  match s.peers.get peerId with
  | none => s
  | some pc =>
    if pc.isInitiator then
      let s1 := s.call [.createOffer pc.handle]
      match offer with
      | none => s1.call [.consoleError]
      | some o =>
        let s2 := s1.call [.setLocalDescription pc.handle o]
        if !setLocalOk then s2.call [.consoleError]
        else s2.call [.socketEmit (.signal peerId "offer" o)]
    else s

/-- One event of the orchestrator. Events of a peer connection reach the handlers of the
connection held under that peer id; a closed connection fires none. -/
def MeshRTC.step (s : MeshRTC) : ClientEvent → MeshRTC
  | .errorMessage msg => s.call [.alert msg]
  | .roomFull roomId max =>
    s.call [.alert ("Room " ++ roomId ++ " is full (max " ++ toString max ++ ").")]
  | .peers list => s.onPeers list
  | .peerJoined id name => s.onPeerJoinedMsg id name
  | .signal sender type data engine => s.onSignal sender type data engine
  | .peerLeft id => s.onPeerLeftMsg id
  | .track peerId stream =>
    match s.peers.get peerId with
    | some pc => if s.onPeerStream then s.call [.onPeerStream peerId stream pc.peerName] else s
    | none => s
  | .icecandidate peerId candidate =>
    match s.peers.get peerId, candidate with
    | some _, some c => s.call [.socketEmit (.signal peerId "ice-candidate" c)]
    | _, _ => s
  | .connectionstatechange peerId connectionState =>
    match s.peers.get peerId with
    | some _ =>
      if connectionState ∈ ["failed", "disconnected", "closed"] then s._closePeer peerId
      else s
    | none => s
  | .datachannel peerId channel =>
    match s.peers.get peerId with
    | some pc => if pc.isInitiator then s else s._setupDataChannel peerId channel
    | none => s
  | .negotiationneeded peerId offer setLocalOk => s.onNegotiationNeeded peerId offer setLocalOk
  | .dataChannelClose peerId => { s with dataChannels := s.dataChannels.delete peerId }
  | .join roomId name => s.join roomId name
  | .closeAll => s.closeAll

/-- The orchestrator after a sequence of events. -/
def MeshRTC.run (s : MeshRTC) (evs : List ClientEvent) : MeshRTC :=
  evs.foldl MeshRTC.step s

/-! ## The relay with its clients -/

/-- How a client receives a relay message: the event of `_bindSocket` it raises. The
transport engine of the receiver settles the promises of a `signal` handler with `engine`. -/
def ServerMsg.toEvent (engine : EngineReply) : ServerMsg → ClientEvent
  | .errorMessage text => .errorMessage text
  | .roomFull roomId max => .roomFull roomId max
  | .peers list => .peers (list.map (fun p => (p.1, some p.2)))
  | .peerJoined id name => .peerJoined id (some name)
  | .signal sender type data => .signal sender type data engine
  | .peerLeft id => .peerLeft id

/-- The relay and one orchestrator per connected socket, named by the socket id. -/
structure System where
  server : Server
  clients : String → Option MeshRTC

/-- No connection yet. -/
def System.init : System :=
  { server := Server.init, clients := fun _ => none }

/-- Hand the messages the relay emitted to their addressees, in the order emitted. -/
def deliver (engine : EngineReply) (clients : String → Option MeshRTC) :
    List (String × ServerMsg) → String → Option MeshRTC
  | [] => clients
  | (dest, msg) :: rest =>
    match clients dest with
    | some c => deliver engine (upd clients dest (some (c.step (msg.toEvent engine)))) rest
    | none => deliver engine clients rest

/-- The events of a peer connection or data channel, raised by the transport engine. -/
def ClientEvent.isTransport : ClientEvent → Bool
  | .track _ _ => true
  | .icecandidate _ _ => true
  | .connectionstatechange _ _ => true
  | .datachannel _ _ => true
  | .negotiationneeded _ _ _ => true
  | .dataChannelClose _ => true
  | _ => false

/-- Events of the whole: a page creates its `MeshRTC` and the socket gets its id; a page
calls `join`; the relay takes a `signal` a client sent; the transport engine of a client
raises an event; a socket disconnects. The messages the relay emits are handled by their
addressees before the next event. -/
inductive SystemEvent where
  | connect (id : String) (localStream : Option (List String))
      (onPeerStream onPeerLeft onPeerJoined : Bool)
  | join (id roomId name : String)
  | signal (id : String) (req : SignalRequest) (engine : EngineReply)
  | transport (id : String) (e : ClientEvent)
  | disconnect (id : String)
deriving DecidableEq, Repr

/-- One event of the whole. -/
def System.step (MAX_PARTICIPANTS : Int) (sys : System) : SystemEvent → System
  | .connect id localStream onPeerStream onPeerLeft onPeerJoined =>
    if sys.server.rooms id = [] ∧ sys.server.sockets id = none then
      { server := (Server.step MAX_PARTICIPANTS sys.server (.connection id)).1,
        clients := upd sys.clients id
          (some (MeshRTC.new localStream onPeerStream onPeerLeft onPeerJoined)) }
    else sys
  | .join id roomId name =>
    match sys.clients id with
    | some c =>
      let r := Server.step MAX_PARTICIPANTS sys.server (.join id roomId name)
      { server := r.1,
        clients := deliver { setRemoteOk := true, answer := none, setLocalOk := true }
          (upd sys.clients id (some (c.join roomId name))) r.2 }
    | none => sys
  | .signal id req engine =>
    let r := Server.step MAX_PARTICIPANTS sys.server (.signal id req)
    { server := r.1, clients := deliver engine sys.clients r.2 }
  | .transport id e =>
    match sys.clients id with
    | some c => if e.isTransport then { sys with clients := upd sys.clients id (some (c.step e)) }
                else sys
    | none => sys
  | .disconnect id =>
    let r := Server.step MAX_PARTICIPANTS sys.server (.disconnect id)
    { server := r.1,
      clients := deliver { setRemoteOk := true, answer := none, setLocalOk := true }
        (upd sys.clients id none) r.2 }

/-- The whole after a sequence of events. -/
def System.run (MAX_PARTICIPANTS : Int) (sys : System) (evs : List SystemEvent) : System :=
  evs.foldl (System.step MAX_PARTICIPANTS) sys

/-- The role of the record client `a` holds for peer `b`: `some true` for Initiator,
`some false` for Responder, `none` when `a` holds no record for `b`. -/
def System.roleOf (sys : System) (a b : String) : Option Bool :=
  match sys.clients a with
  | some c => (c.peers.get b).map (fun pc => pc.isInitiator)
  | none => none

/-- The calls client `a` has made so far. -/
def System.logOf (sys : System) (a : String) : List Effect :=
  match sys.clients a with
  | some c => c.log
  | none => []

/-- The two-party scenario: `A` and `B` connect, `A` joins room `r`, then `B` joins it. -/
def twoPartyJoin (A B r nameA nameB : String) (streamA streamB : Option (List String))
    (a1 a2 a3 b1 b2 b3 : Bool) : List SystemEvent :=
  [.connect A streamA a1 a2 a3, .connect B streamB b1 b2 b3, .join A r nameA, .join B r nameB]

/-! ## Invariants -/

/-- Capacity bound on every room of the adapter. -/
def Bounded (MAX_PARTICIPANTS : Int) (s : Server) : Prop :=
  ∀ r, (getRoomSize s r : Int) ≤ MAX_PARTICIPANTS

/-- The two adapter maps describe the same membership relation. -/
def Consistent (s : Server) : Prop :=
  ∀ r x, x ∈ s.rooms r ↔ r ∈ s.sids x

/-- What holds of the three maps in every state the orchestrator reaches: the keys of
`peers` are distinct, a data channel or a candidate buffer is only held for a peer that
has a connection, and the connections held are distinct objects the counter has passed. -/
structure WellFormed (s : MeshRTC) : Prop where
  keys_nodup : s.peers.keys.Nodup
  channels : ∀ k ∈ s.dataChannels.keys, k ∈ s.peers.keys
  buffers : ∀ k ∈ s.candidateBuffer.keys, k ∈ s.peers.keys
  handles_lt : ∀ p ∈ s.peers.entries, p.2.handle < s.nextHandle
  handles_nodup : (s.peers.entries.map (fun p => p.2.handle)).Nodup

/-- The calls `_closePeer(id)` makes in state `s`: `pc.close()` when a connection is held
for `id`, then `dc.close()` when a data channel is. -/
def MeshRTC.closeCalls (s : MeshRTC) (id : String) : List Effect :=
  ((s.peers.get id).map (fun pc => Effect.pcClose pc.handle)).toList
    ++ ((s.dataChannels.get id).map Effect.dcClose).toList

/-- The role of the record the orchestrator holds for peer `x`: `some true` for
Initiator, `some false` for Responder, `none` when it holds no record for `x`. -/
def MeshRTC.roleOf (s : MeshRTC) (x : String) : Option Bool :=
  (s.peers.get x).map (fun pc => pc.isInitiator)

/-- Whether the event is a client closing a peer record on its own: a connection that
reports `failed`, `disconnected` or `closed`. -/
def SystemEvent.oneSidedClose : SystemEvent → Bool
  | .transport _ (.connectionstatechange _ connectionState) =>
    decide (connectionState ∈ ["failed", "disconnected", "closed"])
  | _ => false

/-- The roles of the records each client holds, client by client. -/
def System.roles (sys : System) (k : String) : Option (String → Option Bool) :=
  (sys.clients k).map MeshRTC.roleOf

/-- What holds of the relay and its clients as long as no client closes a record on its
own: the adapter maps agree, the clients are the connected sockets, room members are
connected, and a record client `y` holds for `x` is either mirrored by a record of the
opposite role at `x`, the two sharing a room, or left over from an `x` that disconnected
while `y` sat in the room named by the id of `x`. -/
structure SysInv (sys : System) : Prop where
  cons : Consistent sys.server
  conn : ∀ x, sys.roles x = none ↔ sys.server.sockets x = none
  members : ∀ r x, x ∈ sys.server.rooms r → sys.server.sockets x ≠ none
  records : ∀ y ρy x b, sys.roles y = some ρy → ρy x = some b →
    x ≠ y ∧
    ((∃ ρx, sys.roles x = some ρx ∧ ρx y = some (!b)
        ∧ ∃ r, x ∈ sys.server.rooms r ∧ y ∈ sys.server.rooms r)
      ∨ (sys.roles x = none ∧ y ∈ sys.server.rooms x))

/-- The events client `k` raises for the relay messages `out`, in order. -/
def inbox (engine : EngineReply) (out : List (String × ServerMsg)) (k : String) :
    List ClientEvent :=
  (out.filter (fun p => p.1 == k)).map (fun p => p.2.toEvent engine)

/-- Events that touch no record of `peers` but for its remote description. -/
def ClientEvent.keepsRoles : ClientEvent → Bool
  | .peers _ => false
  | .peerJoined _ _ => false
  | .peerLeft _ => false
  | .connectionstatechange _ connectionState =>
    !decide (connectionState ∈ ["failed", "disconnected", "closed"])
  | .closeAll => false
  | _ => true

/-! ## Container lemmas -/

theorem mem_setAdd (l : List String) (x y : String) :
    y ∈ setAdd l x ↔ y ∈ l ∨ y = x := by
  unfold setAdd
  split_ifs with h
  · constructor
    · intro hy; exact Or.inl hy
    · rintro (hy | rfl)
      · exact hy
      · exact h
  · simp

theorem length_setAdd_le (l : List String) (x : String) :
    (setAdd l x).length ≤ l.length + 1 := by
  unfold setAdd
  split_ifs <;> simp

theorem mem_setDelete (l : List String) (x y : String) :
    y ∈ setDelete l x ↔ y ∈ l ∧ y ≠ x := by
  simp [setDelete]

theorem length_setDelete_le (l : List String) (x : String) :
    (setDelete l x).length ≤ l.length := by
  simpa [setDelete] using List.length_filter_le _ l

theorem setDelete_setDelete (l : List String) (x : String) :
    setDelete (setDelete l x) x = setDelete l x := by
  simp [setDelete, List.filter_filter]

theorem filter_ne_setAdd (l : List String) (c : String) :
    (setAdd l c).filter (fun id => id != c) = l.filter (fun id => id != c) := by
  unfold setAdd
  split_ifs <;> simp [List.filter_append]

theorem upd_same {β : Type} (m : String → β) (k : String) (v : β) : upd m k v k = v := by
  simp [upd]

theorem upd_other {β : Type} (m : String → β) (k x : String) (v : β) (h : x ≠ k) :
    upd m k v x = m x := by
  simp [upd, h]

/-- What `leaveAll` leaves of each room. -/
theorem foldl_leave (c : String) (rs : List String) (m : String → List String) (r : String) :
    (rs.foldl (fun m room => upd m room (setDelete (m room) c)) m) r
      = if r ∈ rs then setDelete (m r) c else m r := by
  induction rs generalizing m with
  | nil => simp
  | cons a rs ih =>
    simp only [List.foldl_cons, ih, List.mem_cons]
    by_cases hra : r = a
    · subst hra
      simp [upd_same, setDelete_setDelete]
    · simp [upd_other _ _ _ _ hra, hra]

/-! ## Relay invariants -/

theorem bounded_step (MAX_PARTICIPANTS : Int) (h : 1 ≤ MAX_PARTICIPANTS) (s : Server)
    (e : ServerEvent) (hs : Bounded MAX_PARTICIPANTS s) :
    Bounded MAX_PARTICIPANTS (Server.step MAX_PARTICIPANTS s e).1 := by
  intro r
  have hr := hs r
  cases e with
  | connection id =>
    simp only [Server.step, onConnection]
    split_ifs with hg
    · simp only [getRoomSize, socketJoin]
      by_cases hri : r = id
      · subst hri
        simp [upd_same, hg.1, setAdd]
        omega
      · simpa [upd_other _ _ _ _ hri, getRoomSize] using hr
    · exact hr
  | join c roomId name =>
    simp only [Server.step]
    split_ifs with hc
    · exact hr
    · simp only [onJoin]
      split_ifs with h1 h2
      · exact hr
      · exact hr
      · simp only [getRoomSize, socketJoin]
        by_cases hri : r = roomId
        · subst hri
          simp only [upd_same]
          have := length_setAdd_le (s.rooms r) c
          simp only [getRoomSize] at h2
          omega
        · simpa [upd_other _ _ _ _ hri, getRoomSize] using hr
  | signal c req =>
    simp only [Server.step, onSignal]
    split_ifs <;> exact hr
  | disconnect c =>
    simp only [Server.step]
    split_ifs with hc
    · exact hr
    · simp only [onDisconnect, leaveAll, getRoomSize, foldl_leave]
      split_ifs
      · have := length_setDelete_le (s.rooms r) c
        simp only [getRoomSize] at hr
        omega
      · exact hr

theorem bounded_run (MAX_PARTICIPANTS : Int) (h : 1 ≤ MAX_PARTICIPANTS)
    (evs : List ServerEvent) (s : Server) (hs : Bounded MAX_PARTICIPANTS s) :
    Bounded MAX_PARTICIPANTS (Server.run MAX_PARTICIPANTS s evs) := by
  induction evs generalizing s with
  | nil => exact hs
  | cons e evs ih =>
    exact ih _ (bounded_step MAX_PARTICIPANTS h s e hs)

/-- C1. Room capacity invariant: with a capacity of at least 1, after any sequence of
connection, join and disconnect events (and signals) from the empty relay, every room
has at most `MAX_PARTICIPANTS` members. -/
theorem room_capacity_invariant (MAX_PARTICIPANTS : Int) (h : 1 ≤ MAX_PARTICIPANTS)
    (evs : List ServerEvent) (roomId : String) :
    (getRoomSize (Server.run MAX_PARTICIPANTS Server.init evs) roomId : Int)
      ≤ MAX_PARTICIPANTS := by
  apply bounded_run MAX_PARTICIPANTS h evs Server.init
  intro r
  simp [getRoomSize, Server.init]
  omega

/-- Capacity 2 and three sockets asking for room "r1": the bound of C1 at that run. -/
theorem room_capacity_invariant_witness :
    (1 : Int) ≤ 2 ∧
    (getRoomSize (Server.run 2 Server.init
      [.connection "A", .connection "B", .connection "C", .join "A" "r1" "a",
       .join "B" "r1" "b", .join "C" "r1" "c"]) "r1" : Int) ≤ 2 :=
  ⟨by decide, room_capacity_invariant 2 (by decide) _ "r1"⟩

/-- C2. RoomFull: a join by a connected socket for a non-empty room id whose member
count is at least `MAX_PARTICIPANTS` leaves the relay state as it was and emits the
single message `room-full {roomId, max}`, to the requester. -/
theorem room_full_rejects (MAX_PARTICIPANTS : Int) (s : Server) (c roomId name : String)
    (hc : s.sockets c ≠ none) (hroom : roomId ≠ "")
    (hfull : (getRoomSize s roomId : Int) ≥ MAX_PARTICIPANTS) :
    Server.step MAX_PARTICIPANTS s (.join c roomId name)
      = (s, [(c, .roomFull roomId MAX_PARTICIPANTS)]) := by
  simp [Server.step, onJoin, hc, hroom, hfull, emitTo]

/-- Capacity 1 with "A" in room "r1": the join of "B" is refused as C2 says. -/
theorem room_full_rejects_witness :
    ((Server.run 1 Server.init [.connection "A", .connection "B", .join "A" "r1" "a"]).sockets "B"
        ≠ none
      ∧ "r1" ≠ ""
      ∧ (getRoomSize (Server.run 1 Server.init
          [.connection "A", .connection "B", .join "A" "r1" "a"]) "r1" : Int) ≥ 1)
    ∧ Server.step 1 (Server.run 1 Server.init
          [.connection "A", .connection "B", .join "A" "r1" "a"]) (.join "B" "r1" "b")
      = (Server.run 1 Server.init [.connection "A", .connection "B", .join "A" "r1" "a"],
          [("B", .roomFull "r1" 1)]) :=
  ⟨⟨by decide, by decide, by decide⟩,
    room_full_rejects 1 _ "B" "r1" "b" (by decide) (by decide) (by decide)⟩

theorem consistent_socketJoin (s : Server) (c room : String) (hs : Consistent s) :
    Consistent (socketJoin s c room) := by
  intro r x
  have h := hs r x
  simp only [socketJoin, upd]
  by_cases hr : r = room <;> by_cases hx : x = c
  · subst hr; subst hx; simp [mem_setAdd]
  · subst hr; simp [hx, mem_setAdd, h]
  · subst hx; simp [hr, mem_setAdd, h]
  · simp [hr, hx, h]

theorem consistent_leaveAll (s : Server) (c : String) (hs : Consistent s) :
    Consistent (leaveAll s c) := by
  intro r x
  have h := hs r x
  have hc := hs r c
  simp only [leaveAll, foldl_leave, upd]
  by_cases hx : x = c
  · subst hx
    by_cases hr : r ∈ s.sids x
    · simp [hr, mem_setDelete]
    · simp [hr, hc]
  · by_cases hr : r ∈ s.sids c
    · simp [hr, hx, mem_setDelete, h]
    · simp [hr, hx, h]

theorem consistent_step (MAX_PARTICIPANTS : Int) (s : Server) (e : ServerEvent)
    (hs : Consistent s) : Consistent (Server.step MAX_PARTICIPANTS s e).1 := by
  cases e with
  | connection id =>
    simp only [Server.step, onConnection]
    split_ifs with hg
    · exact consistent_socketJoin _ id id hs
    · exact hs
  | join c roomId name =>
    simp only [Server.step]
    split_ifs with hc
    · exact hs
    · simp only [onJoin]
      split_ifs with h1 h2
      · exact hs
      · exact hs
      · exact consistent_socketJoin s c roomId hs
  | signal c req =>
    simp only [Server.step, onSignal]
    split_ifs <;> exact hs
  | disconnect c =>
    simp only [Server.step]
    split_ifs with hc
    · exact hs
    · exact consistent_leaveAll s c hs

theorem consistent_run (MAX_PARTICIPANTS : Int) (evs : List ServerEvent) (s : Server)
    (hs : Consistent s) : Consistent (Server.run MAX_PARTICIPANTS s evs) := by
  induction evs generalizing s with
  | nil => exact hs
  | cons e evs ih => exact ih _ (consistent_step MAX_PARTICIPANTS s e hs)

theorem consistent_init : Consistent Server.init := by
  intro r x
  simp [Server.init]

/-! ## Relay properties -/

/-- C3, as stated, fails when the joiner is already in the room: a second join of
"r1" by "A" is accepted, the room held "A" before it, and the snapshot sent is empty. -/
theorem join_snapshot_rejoin_counterexample :
    ∃ l, (Server.step 4 (Server.run 4 Server.init [.connection "A", .join "A" "r1" "alice"])
            (.join "A" "r1" "alice")).2 = [("A", .peers l)]
      ∧ l.map Prod.fst
          ≠ (Server.run 4 Server.init [.connection "A", .join "A" "r1" "alice"]).rooms "r1" :=
  ⟨[], by decide, by decide⟩

/-- C3, amended. Member snapshot: an accepted join by `c` first sends `c` a `peers` list
whose ids are the members of the room immediately before the join other than `c`
itself, in the room's insertion order; the list never holds `c`, it is exactly the prior
membership when `c` was not yet a member, and everything else sent is a `peer-joined`
notice to another connection. -/
theorem join_snapshot (MAX_PARTICIPANTS : Int) (s : Server) (c roomId name : String)
    (hc : s.sockets c ≠ none) (hroom : roomId ≠ "")
    (hfree : (getRoomSize s roomId : Int) < MAX_PARTICIPANTS) :
    ∃ l rest, (Server.step MAX_PARTICIPANTS s (.join c roomId name)).2 = (c, .peers l) :: rest
      ∧ l.map Prod.fst = (s.rooms roomId).filter (fun id => id != c)
      ∧ c ∉ l.map Prod.fst
      ∧ (c ∉ s.rooms roomId → l.map Prod.fst = s.rooms roomId)
      ∧ ∀ x m, (x, m) ∈ rest → x ≠ c ∧ m = .peerJoined c (displayName name) := by
  have hfree' : ¬ ((getRoomSize s roomId : Int) ≥ MAX_PARTICIPANTS) := by omega
  simp only [Server.step, if_neg hc, onJoin, if_neg hroom, if_neg hfree', emitTo,
    List.singleton_append]
  refine ⟨_, _, rfl, ?_, ?_, ?_, ?_⟩
  · simp [socketJoin, upd_same, filter_ne_setAdd, List.map_map, Function.comp_def]
  · simp [socketJoin, upd_same, filter_ne_setAdd, List.map_map, Function.comp_def]
  · intro hmem
    simp only [socketJoin, upd_same, filter_ne_setAdd, List.map_map, Function.comp_def,
      List.map_id_fun, id_eq, List.map_id_fun']
    rw [List.filter_eq_self]
    intro a ha
    have : a ≠ c := fun h => hmem (h ▸ ha)
    simpa using this
  · intro x m hxm
    simp only [broadcastFrom, List.mem_map, List.mem_filter] at hxm
    obtain ⟨a, ⟨_, hne⟩, heq⟩ := hxm
    simp only [Prod.mk.injEq] at heq
    obtain ⟨rfl, rfl⟩ := heq
    exact ⟨by simpa using hne, rfl⟩

/-- The join of "r1" by "B" after "A": the snapshot of C3 as amended. -/
theorem join_snapshot_witness :
    ((Server.run 4 Server.init
        [.connection "A", .connection "B", .join "A" "r1" "alice"]).sockets "B" ≠ none
      ∧ "r1" ≠ ""
      ∧ (getRoomSize (Server.run 4 Server.init
          [.connection "A", .connection "B", .join "A" "r1" "alice"]) "r1" : Int) < 4)
    ∧ ∃ l rest, (Server.step 4
        (Server.run 4 Server.init [.connection "A", .connection "B", .join "A" "r1" "alice"])
        (.join "B" "r1" "bob")).2 = ("B", .peers l) :: rest
      ∧ l.map Prod.fst
          = ((Server.run 4 Server.init
              [.connection "A", .connection "B", .join "A" "r1" "alice"]).rooms "r1").filter
              (fun id => id != "B")
      ∧ "B" ∉ l.map Prod.fst
      ∧ ("B" ∉ (Server.run 4 Server.init
              [.connection "A", .connection "B", .join "A" "r1" "alice"]).rooms "r1" →
          l.map Prod.fst = (Server.run 4 Server.init
              [.connection "A", .connection "B", .join "A" "r1" "alice"]).rooms "r1")
      ∧ ∀ x m, (x, m) ∈ rest → x ≠ "B" ∧ m = .peerJoined "B" (displayName "bob") :=
  ⟨⟨by decide, by decide, by decide⟩,
    join_snapshot 4 _ "B" "r1" "bob" (by decide) (by decide) (by decide)⟩

/-- C4, as stated, fails: "B" has joined the room named by the id of "A", and a signal
that "C" addresses to "A" is delivered to "A" and to "B". -/
theorem signal_routing_counterexample :
    (Server.step 4
      (Server.run 4 Server.init
        [.connection "A", .connection "B", .connection "C", .join "B" "A" "bob"])
      (.signal "C" { sender := none, dest := "A", type := "offer", data := "sdp" })).2
      = [("A", .signal "C" "offer" "sdp"), ("B", .signal "C" "offer" "sdp")] := by
  decide

/-- C4, amended. Signal routing: a `signal` with `to` and `type` present, sent by a
connected `c`, leaves the relay state as it was and delivers `{from: c, type, data}` to
every member of the socket.io room named `to` and to nobody else; that is the single
connection `to` when its own room holds nobody else. `from` is the id of the sender
whatever `from` the client supplied, and `type` and `data` are passed through. -/
theorem signal_routing (MAX_PARTICIPANTS : Int) (s : Server) (c : String)
    (req : SignalRequest) (hc : s.sockets c ≠ none) (hto : req.dest ≠ "")
    (htype : req.type ≠ "") :
    Server.step MAX_PARTICIPANTS s (.signal c req)
        = (s, (s.rooms req.dest).map (fun id => (id, .signal c req.type req.data)))
      ∧ (s.rooms req.dest = [req.dest] →
          (Server.step MAX_PARTICIPANTS s (.signal c req)).2
            = [(req.dest, .signal c req.type req.data)])
      ∧ ∀ f, Server.step MAX_PARTICIPANTS s (.signal c { req with sender := f })
          = Server.step MAX_PARTICIPANTS s (.signal c req) := by
  refine ⟨?_, ?_, ?_⟩
  · simp [Server.step, onSignal, hc, hto, htype, ioTo]
  · intro h
    simp [Server.step, onSignal, hc, hto, htype, ioTo, h]
  · intro f
    simp [Server.step, onSignal, hc, hto, htype, ioTo]

/-- An offer from "A" addressed to "B": the routing of C4 as amended. -/
theorem signal_routing_witness :
    ((Server.run 4 Server.init
        [.connection "A", .connection "B", .join "A" "r1" "alice"]).sockets "A" ≠ none
      ∧ "B" ≠ "" ∧ "offer" ≠ "")
    ∧ Server.step 4
        (Server.run 4 Server.init [.connection "A", .connection "B", .join "A" "r1" "alice"])
        (.signal "A" { sender := some "Z", dest := "B", type := "offer", data := "sdp" })
      = (Server.run 4 Server.init [.connection "A", .connection "B", .join "A" "r1" "alice"],
          ((Server.run 4 Server.init
              [.connection "A", .connection "B", .join "A" "r1" "alice"]).rooms "B").map
            (fun id => (id, .signal "A" "offer" "sdp")))
      ∧ ((Server.run 4 Server.init
            [.connection "A", .connection "B", .join "A" "r1" "alice"]).rooms "B" = ["B"] →
          (Server.step 4
            (Server.run 4 Server.init [.connection "A", .connection "B", .join "A" "r1" "alice"])
            (.signal "A" { sender := some "Z", dest := "B", type := "offer", data := "sdp" })).2
            = [("B", .signal "A" "offer" "sdp")])
      ∧ ∀ f, Server.step 4
          (Server.run 4 Server.init [.connection "A", .connection "B", .join "A" "r1" "alice"])
          (.signal "A" { sender := f, dest := "B", type := "offer", data := "sdp" })
          = Server.step 4
          (Server.run 4 Server.init [.connection "A", .connection "B", .join "A" "r1" "alice"])
          (.signal "A" { sender := some "Z", dest := "B", type := "offer", data := "sdp" }) :=
  ⟨⟨by decide, by decide, by decide⟩,
    signal_routing 4 _ "A" { sender := some "Z", dest := "B", type := "offer", data := "sdp" }
      (by decide) (by decide) (by decide)⟩

theorem mem_onDisconnecting (s : Server) (d x : String) (m : ServerMsg) :
    (x, m) ∈ onDisconnecting s d
      ↔ m = .peerLeft d ∧ x ≠ d ∧ ∃ room, room ≠ d ∧ room ∈ s.sids d ∧ x ∈ s.rooms room := by
  simp only [onDisconnecting, broadcastFrom, List.mem_flatMap, List.mem_filter, List.mem_map,
    Prod.mk.injEq, bne_iff_ne, ne_eq]
  constructor
  · rintro ⟨room, ⟨hroom, hne⟩, a, ⟨ha, hane⟩, rfl, rfl⟩
    exact ⟨rfl, hane, room, hne, hroom, ha⟩
  · rintro ⟨rfl, hx, room, hne, hroom, ha⟩
    exact ⟨room, ⟨hroom, hne⟩, x, ⟨ha, hx⟩, rfl, rfl⟩

theorem mem_rooms_leaveAll (s : Server) (hs : Consistent s) (d room x : String) :
    x ∈ (leaveAll s d).rooms room ↔ x ∈ s.rooms room ∧ x ≠ d := by
  simp only [leaveAll, foldl_leave]
  split_ifs with h
  · exact mem_setDelete _ _ _
  · constructor
    · intro hx
      refine ⟨hx, ?_⟩
      rintro rfl
      exact h ((hs room x).1 hx)
    · exact fun hx => hx.1

/-- C9, as stated, fails for the room named by the id of the leaving socket: "B" and "A"
have both joined room "A", "B" is still a member of it once "A" has disconnected, and
the relay emits nothing. -/
theorem departure_notice_own_room_counterexample :
    "A" ∈ (Server.run 4 Server.init
        [.connection "A", .connection "B", .join "B" "A" "bob", .join "A" "A" "alice"]).rooms "A"
      ∧ "B" ∈ (Server.step 4 (Server.run 4 Server.init
          [.connection "A", .connection "B", .join "B" "A" "bob", .join "A" "A" "alice"])
          (.disconnect "A")).1.rooms "A"
      ∧ (Server.step 4 (Server.run 4 Server.init
          [.connection "A", .connection "B", .join "B" "A" "bob", .join "A" "A" "alice"])
          (.disconnect "A")).2 = [] := by
  decide

/-- C9, amended. Departure notice: when a connected `d` disconnects in a reachable relay
state, every message emitted is `peer-left {id: d}`, sent to a connection other than `d`
that remains a member of a room `d` was in, other than the room named by the id of `d`;
every remaining member of every such room is sent it; the members of each room
afterwards are the former ones without `d`, so `d` is in no room. -/
theorem departure_notice (MAX_PARTICIPANTS : Int) (evs : List ServerEvent) (d : String)
    (hd : (Server.run MAX_PARTICIPANTS Server.init evs).sockets d ≠ none) :
    (∀ x m, (x, m) ∈ (Server.step MAX_PARTICIPANTS
          (Server.run MAX_PARTICIPANTS Server.init evs) (.disconnect d)).2 →
        m = .peerLeft d ∧ x ≠ d ∧ ∃ room, room ≠ d
          ∧ d ∈ (Server.run MAX_PARTICIPANTS Server.init evs).rooms room
          ∧ x ∈ (Server.step MAX_PARTICIPANTS
              (Server.run MAX_PARTICIPANTS Server.init evs) (.disconnect d)).1.rooms room)
      ∧ (∀ room x, room ≠ d → d ∈ (Server.run MAX_PARTICIPANTS Server.init evs).rooms room →
          x ∈ (Server.step MAX_PARTICIPANTS
              (Server.run MAX_PARTICIPANTS Server.init evs) (.disconnect d)).1.rooms room →
          (x, ServerMsg.peerLeft d) ∈ (Server.step MAX_PARTICIPANTS
              (Server.run MAX_PARTICIPANTS Server.init evs) (.disconnect d)).2)
      ∧ (∀ room x, x ∈ (Server.step MAX_PARTICIPANTS
              (Server.run MAX_PARTICIPANTS Server.init evs) (.disconnect d)).1.rooms room
          ↔ x ∈ (Server.run MAX_PARTICIPANTS Server.init evs).rooms room ∧ x ≠ d)
      ∧ ∀ room, d ∉ (Server.step MAX_PARTICIPANTS
              (Server.run MAX_PARTICIPANTS Server.init evs) (.disconnect d)).1.rooms room := by
  have hs : Consistent (Server.run MAX_PARTICIPANTS Server.init evs) :=
    consistent_run MAX_PARTICIPANTS evs _ consistent_init
  generalize Server.run MAX_PARTICIPANTS Server.init evs = s at hd hs
  simp only [Server.step, if_neg hd, onDisconnect]
  refine ⟨?_, ?_, ?_, ?_⟩
  · intro x m hxm
    obtain ⟨hm, hx, room, hne, hroom, hmem⟩ := (mem_onDisconnecting s d x m).1 hxm
    exact ⟨hm, hx, room, hne, (hs room d).2 hroom,
      (mem_rooms_leaveAll s hs d room x).2 ⟨hmem, hx⟩⟩
  · intro room x hne hdr hx
    obtain ⟨hmem, hxd⟩ := (mem_rooms_leaveAll s hs d room x).1 hx
    exact (mem_onDisconnecting s d x _).2 ⟨rfl, hxd, room, hne, (hs room d).1 hdr, hmem⟩
  · intro room x
    exact mem_rooms_leaveAll s hs d room x
  · intro room hmem
    exact ((mem_rooms_leaveAll s hs d room d).1 hmem).2 rfl


/-- The disconnect of "B" from a room shared with "A": the notices of C9 as amended. -/
theorem departure_notice_witness :
    (Server.run 4 Server.init
        [.connection "A", .connection "B", .join "A" "r1" "a", .join "B" "r1" "b"]).sockets "B"
        ≠ none
    ∧ ((∀ x m, (x, m) ∈ (Server.step 4
          (Server.run 4 Server.init
            [.connection "A", .connection "B", .join "A" "r1" "a", .join "B" "r1" "b"])
          (.disconnect "B")).2 →
        m = .peerLeft "B" ∧ x ≠ "B" ∧ ∃ room, room ≠ "B"
          ∧ "B" ∈ (Server.run 4 Server.init
              [.connection "A", .connection "B", .join "A" "r1" "a", .join "B" "r1" "b"]).rooms room
          ∧ x ∈ (Server.step 4
              (Server.run 4 Server.init
                [.connection "A", .connection "B", .join "A" "r1" "a", .join "B" "r1" "b"])
              (.disconnect "B")).1.rooms room)
      ∧ (∀ room x, room ≠ "B" → "B" ∈ (Server.run 4 Server.init
            [.connection "A", .connection "B", .join "A" "r1" "a", .join "B" "r1" "b"]).rooms room →
          x ∈ (Server.step 4
              (Server.run 4 Server.init
                [.connection "A", .connection "B", .join "A" "r1" "a", .join "B" "r1" "b"])
              (.disconnect "B")).1.rooms room →
          (x, ServerMsg.peerLeft "B") ∈ (Server.step 4
              (Server.run 4 Server.init
                [.connection "A", .connection "B", .join "A" "r1" "a", .join "B" "r1" "b"])
              (.disconnect "B")).2)
      ∧ (∀ room x, x ∈ (Server.step 4
              (Server.run 4 Server.init
                [.connection "A", .connection "B", .join "A" "r1" "a", .join "B" "r1" "b"])
              (.disconnect "B")).1.rooms room
          ↔ x ∈ (Server.run 4 Server.init
              [.connection "A", .connection "B", .join "A" "r1" "a", .join "B" "r1" "b"]).rooms room
            ∧ x ≠ "B")
      ∧ ∀ room, "B" ∉ (Server.step 4
              (Server.run 4 Server.init
                [.connection "A", .connection "B", .join "A" "r1" "a", .join "B" "r1" "b"])
              (.disconnect "B")).1.rooms room) :=
  ⟨by decide, departure_notice 4
    [.connection "A", .connection "B", .join "A" "r1" "a", .join "B" "r1" "b"] "B" (by decide)⟩

/-! ## `Map` lemmas -/

theorem lookupEntry_setEntry_same {β : Type} (m : List (String × β)) (k : String) (v : β) :
    lookupEntry (setEntry m k v) k = some v := by
  induction m with
  | nil => simp [setEntry, lookupEntry]
  | cons p m ih =>
    obtain ⟨a, w⟩ := p
    by_cases h : a = k
    · simp [setEntry, lookupEntry, h]
    · simp [setEntry, lookupEntry, h, ih]

theorem lookupEntry_setEntry_other {β : Type} (m : List (String × β)) (k x : String) (v : β)
    (hx : x ≠ k) : lookupEntry (setEntry m k v) x = lookupEntry m x := by
  induction m with
  | nil => simp [setEntry, lookupEntry, Ne.symm hx]
  | cons p m ih =>
    obtain ⟨a, w⟩ := p
    by_cases h : a = k
    · subst h
      simp [setEntry, lookupEntry, Ne.symm hx]
    · by_cases h2 : a = x
      · subst h2
        simp [setEntry, lookupEntry, h]
      · simp [setEntry, lookupEntry, h, h2, ih]

theorem lookupEntry_filter_same {β : Type} (m : List (String × β)) (k : String) :
    lookupEntry (m.filter (fun p => p.1 != k)) k = none := by
  induction m with
  | nil => simp [lookupEntry]
  | cons p m ih =>
    obtain ⟨a, w⟩ := p
    by_cases h : a = k
    · simp [List.filter_cons, h, ih]
    · simp [List.filter_cons, h, lookupEntry, ih]

theorem lookupEntry_filter_other {β : Type} (m : List (String × β)) (k x : String)
    (hx : x ≠ k) : lookupEntry (m.filter (fun p => p.1 != k)) x = lookupEntry m x := by
  induction m with
  | nil => simp [lookupEntry]
  | cons p m ih =>
    obtain ⟨a, w⟩ := p
    by_cases h : a = k
    · subst h
      simp [List.filter_cons, lookupEntry, Ne.symm hx, ih]
    · by_cases h2 : a = x
      · subst h2
        simp [List.filter_cons, h, lookupEntry]
      · simp [List.filter_cons, h, lookupEntry, h2, ih]

theorem lookupEntry_eq_none_iff {β : Type} (m : List (String × β)) (k : String) :
    lookupEntry m k = none ↔ k ∉ m.map Prod.fst := by
  induction m with
  | nil => simp [lookupEntry]
  | cons p m ih =>
    obtain ⟨a, w⟩ := p
    by_cases h : a = k
    · simp [lookupEntry, h]
    · simp [lookupEntry, h, ih, Ne.symm h]

theorem filter_eq_self_of_lookup_none {β : Type} (m : List (String × β)) (k : String)
    (h : lookupEntry m k = none) : m.filter (fun p => p.1 != k) = m := by
  rw [List.filter_eq_self]
  intro p hp
  have hk := (lookupEntry_eq_none_iff m k).1 h
  have : p.1 ≠ k := by
    rintro rfl
    exact hk (List.mem_map_of_mem Prod.fst hp)
  simpa using this

theorem filter_setEntry {β : Type} (m : List (String × β)) (k : String) (v : β) :
    (setEntry m k v).filter (fun p => p.1 != k) = m.filter (fun p => p.1 != k) := by
  induction m with
  | nil => simp [setEntry]
  | cons p m ih =>
    obtain ⟨a, w⟩ := p
    by_cases h : a = k
    · simp [setEntry, h, List.filter_cons]
    · simp [setEntry, h, List.filter_cons, ih]

theorem keys_setEntry_of_none {β : Type} (m : List (String × β)) (k : String) (v : β)
    (h : lookupEntry m k = none) :
    (setEntry m k v).map Prod.fst = m.map Prod.fst ++ [k] := by
  induction m with
  | nil => simp [setEntry]
  | cons p m ih =>
    obtain ⟨a, w⟩ := p
    by_cases h2 : a = k
    · simp [lookupEntry, h2] at h
    · simp only [lookupEntry, h2, if_false] at h
      simp [setEntry, h2, ih h]

theorem keys_setEntry_of_some {β : Type} (m : List (String × β)) (k : String) (v w : β)
    (h : lookupEntry m k = some w) :
    (setEntry m k v).map Prod.fst = m.map Prod.fst := by
  induction m with
  | nil => simp [lookupEntry] at h
  | cons p m ih =>
    obtain ⟨a, u⟩ := p
    by_cases h2 : a = k
    · simp [setEntry, h2]
    · simp only [lookupEntry, h2, if_false] at h
      simp [setEntry, h2, ih h]

theorem mem_keys_setEntry {β : Type} (m : List (String × β)) (k x : String) (v : β) :
    x ∈ (setEntry m k v).map Prod.fst ↔ x ∈ m.map Prod.fst ∨ x = k := by
  cases h : lookupEntry m k with
  | none => rw [keys_setEntry_of_none m k v h]; simp
  | some w =>
    rw [keys_setEntry_of_some m k v w h]
    constructor
    · exact Or.inl
    · rintro (hx | rfl)
      · exact hx
      · by_contra hn
        rw [(lookupEntry_eq_none_iff m x).2 hn] at h
        cases h

theorem JsMap.get_set_same {β : Type} (m : JsMap β) (k : String) (v : β) :
    (m.set k v).get k = some v :=
  lookupEntry_setEntry_same m.entries k v

theorem JsMap.get_set_other {β : Type} (m : JsMap β) (k x : String) (v : β) (hx : x ≠ k) :
    (m.set k v).get x = m.get x :=
  lookupEntry_setEntry_other m.entries k x v hx

theorem JsMap.get_delete_same {β : Type} (m : JsMap β) (k : String) :
    (m.delete k).get k = none :=
  lookupEntry_filter_same m.entries k

theorem JsMap.get_delete_other {β : Type} (m : JsMap β) (k x : String) (hx : x ≠ k) :
    (m.delete k).get x = m.get x :=
  lookupEntry_filter_other m.entries k x hx

theorem JsMap.delete_of_get_none {β : Type} (m : JsMap β) (k : String)
    (h : m.get k = none) : m.delete k = m := by
  cases m with
  | mk entries =>
    simp only [JsMap.delete, JsMap.mk.injEq]
    exact filter_eq_self_of_lookup_none entries k h

theorem JsMap.delete_delete {β : Type} (m : JsMap β) (k : String) :
    (m.delete k).delete k = m.delete k :=
  JsMap.delete_of_get_none _ _ (JsMap.get_delete_same m k)

theorem JsMap.delete_set {β : Type} (m : JsMap β) (k : String) (v : β) :
    (m.set k v).delete k = m.delete k := by
  simp only [JsMap.delete, JsMap.set, JsMap.mk.injEq]
  exact filter_setEntry m.entries k v

theorem JsMap.mem_keys_delete {β : Type} (m : JsMap β) (k x : String) :
    x ∈ (m.delete k).keys ↔ x ∈ m.keys ∧ x ≠ k := by
  simp only [JsMap.keys, JsMap.delete, List.mem_map, List.mem_filter]
  constructor
  · rintro ⟨p, ⟨hp, hne⟩, rfl⟩
    exact ⟨⟨p, hp, rfl⟩, by simpa using hne⟩
  · rintro ⟨⟨p, hp, rfl⟩, hne⟩
    exact ⟨p, ⟨hp, by simpa using hne⟩, rfl⟩

theorem JsMap.mem_keys_set {β : Type} (m : JsMap β) (k x : String) (v : β) :
    x ∈ (m.set k v).keys ↔ x ∈ m.keys ∨ x = k :=
  mem_keys_setEntry m.entries k x v

theorem JsMap.get_eq_none_iff {β : Type} (m : JsMap β) (k : String) :
    m.get k = none ↔ k ∉ m.keys :=
  lookupEntry_eq_none_iff m.entries k

/-! ## Closing a peer -/

theorem closePeer_peers (s : MeshRTC) (id : String) :
    (s._closePeer id).peers = s.peers.delete id := by
  unfold MeshRTC._closePeer
  cases h : s.peers.get id with
  | none =>
    simp only [MeshRTC.call]
    split <;> simp [JsMap.delete_of_get_none _ _ h]
  | some pc =>
    simp only [MeshRTC.call]
    split <;> simp

theorem closePeer_dataChannels (s : MeshRTC) (id : String) :
    (s._closePeer id).dataChannels = s.dataChannels.delete id := by
  unfold MeshRTC._closePeer
  cases h : s.peers.get id with
  | none =>
    simp only [MeshRTC.call]
    cases h2 : s.dataChannels.get id with
    | none => simp [JsMap.delete_of_get_none _ _ h2]
    | some dc => simp
  | some pc =>
    simp only [MeshRTC.call]
    cases h2 : s.dataChannels.get id with
    | none => simp [JsMap.delete_of_get_none _ _ h2]
    | some dc => simp

theorem closePeer_candidateBuffer (s : MeshRTC) (id : String) :
    (s._closePeer id).candidateBuffer = s.candidateBuffer.delete id := by
  unfold MeshRTC._closePeer
  cases h : s.peers.get id <;> cases h2 : s.dataChannels.get id <;> simp [MeshRTC.call, h2]

/-- Closing a peer the orchestrator holds nothing for only touches the buffer map. -/
theorem closePeer_of_absent (s : MeshRTC) (id : String) (hp : s.peers.get id = none)
    (hd : s.dataChannels.get id = none) :
    s._closePeer id = { s with candidateBuffer := s.candidateBuffer.delete id } := by
  unfold MeshRTC._closePeer
  simp [hp, hd]

/-- A second `_closePeer(id)` changes nothing: the three maps stay as the first call left
them and the record of calls gets no new entry. -/
theorem closePeer_idempotent (s : MeshRTC) (id : String) :
    (s._closePeer id)._closePeer id = s._closePeer id := by
  have hp : (s._closePeer id).peers.get id = none := by
    rw [closePeer_peers]; exact JsMap.get_delete_same _ _
  have hd : (s._closePeer id).dataChannels.get id = none := by
    rw [closePeer_dataChannels]; exact JsMap.get_delete_same _ _
  rw [closePeer_of_absent _ _ hp hd]
  have hc : (s._closePeer id).candidateBuffer.delete id = (s._closePeer id).candidateBuffer := by
    rw [closePeer_candidateBuffer]; exact JsMap.delete_delete _ _
  rw [hc]

/-! ## Orchestrator invariants -/

theorem setEntry_of_none {β : Type} (m : List (String × β)) (k : String) (v : β)
    (h : lookupEntry m k = none) : setEntry m k v = m ++ [(k, v)] := by
  induction m with
  | nil => simp [setEntry]
  | cons p m ih =>
    obtain ⟨a, w⟩ := p
    by_cases h2 : a = k
    · simp [lookupEntry, h2] at h
    · simp only [lookupEntry, h2, if_false] at h
      simp [setEntry, h2, ih h]

theorem map_setEntry_of_some {β γ : Type} (f : β → γ) (m : List (String × β)) (k : String)
    (v w : β) (h : lookupEntry m k = some w) (hf : f v = f w) :
    (setEntry m k v).map (fun p => f p.2) = m.map (fun p => f p.2) := by
  induction m with
  | nil => simp [lookupEntry] at h
  | cons p m ih =>
    obtain ⟨a, u⟩ := p
    by_cases h2 : a = k
    · simp only [lookupEntry, h2, if_true, Option.some.injEq] at h
      subst h
      simp [setEntry, h2, hf]
    · simp only [lookupEntry, h2, if_false] at h
      simp [setEntry, h2, ih h]

theorem mem_setEntry {β : Type} (m : List (String × β)) (k : String) (v : β)
    (p : String × β) (hp : p ∈ setEntry m k v) : p ∈ m ∨ p = (k, v) := by
  induction m with
  | nil => simpa [setEntry] using hp
  | cons q m ih =>
    obtain ⟨a, u⟩ := q
    by_cases h2 : a = k
    · simp only [setEntry, h2, if_true, List.mem_cons] at hp
      rcases hp with hp | hp
      · exact Or.inr hp
      · exact Or.inl (List.mem_cons_of_mem _ hp)
    · simp only [setEntry, h2, if_false, List.mem_cons] at hp
      rcases hp with hp | hp
      · exact Or.inl (hp ▸ List.mem_cons_self _ _)
      · rcases ih hp with h | h
        · exact Or.inl (List.mem_cons_of_mem _ h)
        · exact Or.inr h

theorem wf_new (localStream : Option (List String)) (a b c : Bool) :
    WellFormed (MeshRTC.new localStream a b c) := by
  constructor <;> simp [MeshRTC.new, JsMap.empty, JsMap.keys]

theorem wf_call (s : MeshRTC) (es : List Effect) (h : WellFormed s) :
    WellFormed (s.call es) :=
  ⟨h.keys_nodup, h.channels, h.buffers, h.handles_lt, h.handles_nodup⟩

/-- The invariant only reads the three maps and the counter. -/
theorem wf_congr (s t : MeshRTC) (h : WellFormed s) (hp : t.peers = s.peers)
    (hd : t.dataChannels = s.dataChannels) (hc : t.candidateBuffer = s.candidateBuffer)
    (hn : s.nextHandle ≤ t.nextHandle) : WellFormed t := by
  constructor
  · rw [hp]; exact h.keys_nodup
  · rw [hp, hd]; exact h.channels
  · rw [hp, hc]; exact h.buffers
  · rw [hp]; exact fun p hpm => Nat.lt_of_lt_of_le (h.handles_lt p hpm) hn
  · rw [hp]; exact h.handles_nodup

/-- Deleting a peer from all three maps keeps the invariant. -/
theorem wf_delete (s t : MeshRTC) (id : String) (h : WellFormed s)
    (hp : t.peers = s.peers.delete id) (hd : t.dataChannels = s.dataChannels.delete id)
    (hc : t.candidateBuffer = s.candidateBuffer.delete id) (hn : t.nextHandle = s.nextHandle) :
    WellFormed t := by
  have hsub : List.Sublist (s.peers.delete id).entries s.peers.entries :=
    List.filter_sublist _
  constructor
  · rw [hp]
    exact List.Nodup.sublist (List.Sublist.map _ hsub) h.keys_nodup
  · intro k hk
    rw [hd] at hk
    rw [hp]
    obtain ⟨hk1, hk2⟩ := (JsMap.mem_keys_delete _ _ _).1 hk
    exact (JsMap.mem_keys_delete _ _ _).2 ⟨h.channels k hk1, hk2⟩
  · intro k hk
    rw [hc] at hk
    rw [hp]
    obtain ⟨hk1, hk2⟩ := (JsMap.mem_keys_delete _ _ _).1 hk
    exact (JsMap.mem_keys_delete _ _ _).2 ⟨h.buffers k hk1, hk2⟩
  · intro p hpm
    rw [hp] at hpm
    rw [hn]
    exact h.handles_lt p (hsub.subset hpm)
  · rw [hp]
    exact List.Nodup.sublist (List.Sublist.map _ hsub) h.handles_nodup

theorem wf_closePeer (s : MeshRTC) (id : String) (h : WellFormed s) :
    WellFormed (s._closePeer id) := by
  refine wf_delete s _ id h (closePeer_peers s id) (closePeer_dataChannels s id)
    (closePeer_candidateBuffer s id) ?_
  unfold MeshRTC._closePeer
  cases h1 : s.peers.get id <;> cases h2 : s.dataChannels.get id <;> simp [MeshRTC.call, h2]

/-- Changing `dataChannels` or `candidateBuffer` under a key that has a connection, or
deleting from them, keeps the invariant. -/
theorem wf_side (s t : MeshRTC) (h : WellFormed s) (hp : t.peers = s.peers)
    (hn : t.nextHandle = s.nextHandle)
    (hd : ∀ k ∈ t.dataChannels.keys, k ∈ s.dataChannels.keys ∨ k ∈ s.peers.keys)
    (hc : ∀ k ∈ t.candidateBuffer.keys, k ∈ s.candidateBuffer.keys ∨ k ∈ s.peers.keys) :
    WellFormed t := by
  constructor
  · rw [hp]; exact h.keys_nodup
  · intro k hk
    rw [hp]
    rcases hd k hk with h1 | h1
    · exact h.channels k h1
    · exact h1
  · intro k hk
    rw [hp]
    rcases hc k hk with h1 | h1
    · exact h.buffers k h1
    · exact h1
  · rw [hp, hn]; exact h.handles_lt
  · rw [hp]; exact h.handles_nodup

theorem mem_keys_of_get {β : Type} (m : JsMap β) (k : String) (v : β) (h : m.get k = some v) :
    k ∈ m.keys := by
  by_contra hn
  rw [(JsMap.get_eq_none_iff m k).2 hn] at h
  cases h

theorem wf_setupDataChannel (s : MeshRTC) (peerId : String) (dc : Nat) (h : WellFormed s)
    (hk : peerId ∈ s.peers.keys) : WellFormed (s._setupDataChannel peerId dc) := by
  refine wf_side s _ h rfl rfl ?_ ?_
  · intro k hkk
    rcases (JsMap.mem_keys_set _ _ _ _).1 hkk with h1 | rfl
    · exact Or.inl h1
    · exact Or.inr hk
  · intro k hkk
    exact Or.inl hkk

theorem wf_createConnection (s : MeshRTC) (peerId : String) (isInitiator : Bool)
    (peerName : Option String) (h : WellFormed s) :
    WellFormed (s._createConnection peerId isInitiator peerName) := by
  unfold MeshRTC._createConnection
  by_cases hhas : s.peers.has peerId = true
  · simp only [hhas, if_true]
    exact h
  · simp only [hhas]
    have hnone : lookupEntry s.peers.entries peerId = none := by
      simpa [JsMap.has, JsMap.get] using hhas
    -- the state right after `this.peers.set(peerId, pc)`
    have h1 : WellFormed { s with
        nextHandle := s.nextHandle + 1
        peers := s.peers.set peerId
          { handle := s.nextHandle, isInitiator := isInitiator,
            peerName := peerName.getD "Peer", remoteDescription := none } } := by
      constructor
      · simp only [JsMap.keys, JsMap.set, keys_setEntry_of_none _ _ _ hnone]
        rw [List.nodup_append]
        refine ⟨h.keys_nodup, by simp, ?_⟩
        intro a ha hb
        simp only [List.mem_singleton] at hb
        subst hb
        exact (lookupEntry_eq_none_iff _ _).1 hnone ha
      · intro k hk
        exact (JsMap.mem_keys_set _ _ _ _).2 (Or.inl (h.channels k hk))
      · intro k hk
        exact (JsMap.mem_keys_set _ _ _ _).2 (Or.inl (h.buffers k hk))
      · intro p hp
        simp only [JsMap.set, setEntry_of_none _ _ _ hnone, List.mem_append,
          List.mem_singleton] at hp
        rcases hp with hp | rfl
        · exact Nat.lt_succ_of_lt (h.handles_lt p hp)
        · exact Nat.lt_succ_self _
      · simp only [JsMap.set, setEntry_of_none _ _ _ hnone, List.map_append, List.map_cons,
          List.map_nil]
        rw [List.nodup_append]
        refine ⟨h.handles_nodup, by simp, ?_⟩
        intro a ha hb
        simp only [List.mem_singleton] at hb
        subst hb
        obtain ⟨p, hp, hpe⟩ := List.mem_map.1 ha
        have := h.handles_lt p hp
        omega
    have hkey : peerId ∈ (s.peers.set peerId
          { handle := s.nextHandle, isInitiator := isInitiator,
            peerName := peerName.getD "Peer", remoteDescription := none }).keys :=
      (JsMap.mem_keys_set _ _ _ _).2 (Or.inr rfl)
    cases hls : s.localStream with
    | none =>
      cases isInitiator with
      | false => exact wf_congr _ _ h1 rfl rfl rfl (Nat.le_refl _)
      | true =>
        simp only [MeshRTC.call, hls, if_true]
        exact wf_setupDataChannel _ _ _
          (wf_congr _ _ h1 rfl rfl rfl (Nat.le_succ _)) hkey
    | some tracks =>
      cases isInitiator with
      | false => exact wf_congr _ _ h1 rfl rfl rfl (Nat.le_refl _)
      | true =>
        simp only [MeshRTC.call, hls, if_true]
        exact wf_setupDataChannel _ _ _
          (wf_congr _ _ h1 rfl rfl rfl (Nat.le_succ _)) hkey

theorem wf_flush (s : MeshRTC) (id : String) (h : WellFormed s) :
    WellFormed (s._flushBufferedCandidates id) := by
  unfold MeshRTC._flushBufferedCandidates
  cases hg : s.peers.get id with
  | none => exact h
  | some pc =>
    refine wf_side s _ h rfl rfl (fun k hk => Or.inl hk) ?_
    intro k hk
    exact Or.inl ((JsMap.mem_keys_delete _ _ _).1 hk).1

/-- Writing to a field of a connection held in `peers` keeps the invariant. -/
theorem wf_setPeer (s t : MeshRTC) (k : String) (pc pc2 : PeerConnection) (h : WellFormed s)
    (hg : s.peers.get k = some pc) (hh : pc2.handle = pc.handle)
    (hp : t.peers = s.peers.set k pc2) (hd : t.dataChannels = s.dataChannels)
    (hc : t.candidateBuffer = s.candidateBuffer) (hn : t.nextHandle = s.nextHandle) :
    WellFormed t := by
  have hkeys : t.peers.keys = s.peers.keys := by
    rw [hp]; exact keys_setEntry_of_some _ _ _ _ hg
  constructor
  · rw [hkeys]; exact h.keys_nodup
  · rw [hkeys, hd]; exact h.channels
  · rw [hkeys, hc]; exact h.buffers
  · intro p hpm
    rw [hp] at hpm
    rw [hn]
    rcases mem_setEntry _ _ _ _ hpm with h1 | rfl
    · exact h.handles_lt p h1
    · rw [hh]
      have hk : k ∈ s.peers.keys := mem_keys_of_get _ _ _ hg
      have hmem : (k, pc) ∈ s.peers.entries := by
        clear hp hpm hkeys
        have : ∀ m : List (String × PeerConnection), lookupEntry m k = some pc → (k, pc) ∈ m := by
          intro m
          induction m with
          | nil => intro hm; simp [lookupEntry] at hm
          | cons q m ih =>
            obtain ⟨a, u⟩ := q
            intro hm
            by_cases h2 : a = k
            · simp only [lookupEntry, h2, if_true, Option.some.injEq] at hm
              subst hm; subst h2
              exact List.mem_cons_self _ _
            · simp only [lookupEntry, h2, if_false] at hm
              exact List.mem_cons_of_mem _ (ih hm)
        exact this _ hg
      exact h.handles_lt _ hmem
  · rw [hp]
    have := map_setEntry_of_some (fun pc : PeerConnection => pc.handle) s.peers.entries k pc2 pc
      hg hh
    simp only [JsMap.set]
    rw [this]
    exact h.handles_nodup

theorem wf_onSignal (s : MeshRTC) (sender type data : String) (engine : EngineReply)
    (h : WellFormed s) : WellFormed (s.onSignal sender type data engine) := by
  unfold MeshRTC.onSignal
  cases hg : s.peers.get sender with
  | none => exact h
  | some pc =>
    have hset : ∀ es, WellFormed { s.call es with
        peers := (s.call es).peers.set sender { pc with remoteDescription := some data } } :=
      fun es => wf_setPeer s _ sender pc { pc with remoteDescription := some data } h hg
        rfl rfl rfl rfl rfl
    have hbuf : ∀ v, WellFormed { s with candidateBuffer := s.candidateBuffer.set sender v } := by
      intro v
      refine wf_side s _ h rfl rfl (fun k hk => Or.inl hk) ?_
      intro k hk
      rcases (JsMap.mem_keys_set _ _ _ _).1 hk with h7 | rfl
      · exact Or.inl h7
      · exact Or.inr (mem_keys_of_get _ _ _ hg)
    simp only
    repeat' split
    all_goals first
      | exact h
      | exact wf_call _ _ h
      | exact wf_call _ _ (hset _)
      | exact wf_call _ _ (wf_call _ _ (hset _))
      | exact wf_flush _ _ (hset _)
      | exact wf_flush _ _ (wf_call _ _ (wf_call _ _ (wf_call _ _ (hset _))))
      | exact hbuf _

theorem wf_foldl_createConnection (list : List (String × Option String)) (b : Bool)
    (s : MeshRTC) (h : WellFormed s) :
    WellFormed (list.foldl (fun st p => st._createConnection p.1 b p.2) s) := by
  induction list generalizing s with
  | nil => exact h
  | cons p list ih => exact ih _ (wf_createConnection s p.1 b p.2 h)

theorem wf_foldl_closePeer (ks : List String) (s : MeshRTC) (h : WellFormed s) :
    WellFormed (ks.foldl MeshRTC._closePeer s) := by
  induction ks generalizing s with
  | nil => exact h
  | cons k ks ih => exact ih _ (wf_closePeer s k h)

theorem wf_step (s : MeshRTC) (e : ClientEvent) (h : WellFormed s) : WellFormed (s.step e) := by
  cases e with
  | errorMessage msg => exact wf_call _ _ h
  | roomFull roomId max => exact wf_call _ _ h
  | peers list => exact wf_foldl_createConnection list true s h
  | peerJoined id name =>
    simp only [MeshRTC.step, MeshRTC.onPeerJoinedMsg]
    split_ifs
    · exact wf_createConnection _ _ _ _ (wf_call _ _ h)
    · exact wf_createConnection _ _ _ _ h
  | signal sender type data engine => exact wf_onSignal s sender type data engine h
  | peerLeft id =>
    simp only [MeshRTC.step, MeshRTC.onPeerLeftMsg]
    split_ifs
    · exact wf_call _ _ (wf_closePeer s id h)
    · exact wf_closePeer s id h
  | track peerId stream =>
    simp only [MeshRTC.step]
    split
    · split_ifs
      · exact wf_call _ _ h
      · exact h
    · exact h
  | icecandidate peerId candidate =>
    simp only [MeshRTC.step]
    split
    · exact wf_call _ _ h
    · exact h
  | connectionstatechange peerId connectionState =>
    simp only [MeshRTC.step]
    split
    · split_ifs
      · exact wf_closePeer s peerId h
      · exact h
    · exact h
  | datachannel peerId channel =>
    simp only [MeshRTC.step]
    split
    · rename_i pc hg
      split_ifs
      · exact h
      · exact wf_setupDataChannel s peerId channel h (mem_keys_of_get _ _ _ hg)
    · exact h
  | negotiationneeded peerId offer setLocalOk =>
    simp only [MeshRTC.step, MeshRTC.onNegotiationNeeded]
    repeat' split
    all_goals first
      | exact h
      | exact wf_call _ _ (wf_call _ _ h)
      | exact wf_call _ _ (wf_call _ _ (wf_call _ _ h))
  | dataChannelClose peerId =>
    refine wf_side s _ h rfl rfl ?_ (fun k hk => Or.inl hk)
    intro k hk
    exact Or.inl ((JsMap.mem_keys_delete _ _ _).1 hk).1
  | join roomId name => exact wf_congr s _ h rfl rfl rfl (Nat.le_refl _)
  | closeAll => exact wf_call _ _ (wf_foldl_closePeer _ s h)

theorem wf_run (evs : List ClientEvent) (s : MeshRTC) (h : WellFormed s) :
    WellFormed (s.run evs) := by
  induction evs generalizing s with
  | nil => exact h
  | cons e evs ih => exact ih _ (wf_step s e h)

/-! ## Local teardown -/

theorem closePeer_log (s : MeshRTC) (id : String) :
    (s._closePeer id).log = s.log ++ s.closeCalls id := by
  unfold MeshRTC._closePeer MeshRTC.closeCalls
  cases h1 : s.peers.get id <;> cases h2 : s.dataChannels.get id <;> simp [MeshRTC.call, h2]

theorem closeCalls_closePeer_other (s : MeshRTC) (id k : String) (hk : k ≠ id) :
    (s._closePeer id).closeCalls k = s.closeCalls k := by
  unfold MeshRTC.closeCalls
  rw [closePeer_peers, closePeer_dataChannels, JsMap.get_delete_other _ _ _ hk,
    JsMap.get_delete_other _ _ _ hk]

theorem foldl_closePeer_log (ks : List String) (s : MeshRTC) (hks : ks.Nodup) :
    (ks.foldl MeshRTC._closePeer s).log = s.log ++ ks.flatMap s.closeCalls := by
  induction ks generalizing s with
  | nil => simp
  | cons k ks ih =>
    have hk : k ∉ ks := (List.nodup_cons.1 hks).1
    simp only [List.foldl_cons, List.flatMap_cons]
    rw [ih _ (List.nodup_cons.1 hks).2, closePeer_log, List.append_assoc]
    congr 2
    apply List.flatMap_congr
    intro x hx
    exact closeCalls_closePeer_other s k x (fun h => hk (h ▸ hx))

theorem foldl_closePeer_maps (ks : List String) (s : MeshRTC) :
    (ks.foldl MeshRTC._closePeer s).peers = ks.foldl JsMap.delete s.peers
      ∧ (ks.foldl MeshRTC._closePeer s).dataChannels = ks.foldl JsMap.delete s.dataChannels
      ∧ (ks.foldl MeshRTC._closePeer s).candidateBuffer
          = ks.foldl JsMap.delete s.candidateBuffer := by
  induction ks generalizing s with
  | nil => simp
  | cons k ks ih =>
    simp only [List.foldl_cons]
    rw [(ih _).1, (ih _).2.1, (ih _).2.2, closePeer_peers, closePeer_dataChannels,
      closePeer_candidateBuffer]
    exact ⟨rfl, rfl, rfl⟩

theorem mem_keys_foldl_delete {β : Type} (ks : List String) (m : JsMap β) (x : String) :
    x ∈ (ks.foldl JsMap.delete m).keys ↔ x ∈ m.keys ∧ x ∉ ks := by
  induction ks generalizing m with
  | nil => simp
  | cons k ks ih =>
    simp only [List.foldl_cons, ih, JsMap.mem_keys_delete, List.mem_cons, not_or]
    tauto

theorem foldl_delete_empty {β : Type} (ks : List String) (m : JsMap β)
    (h : ∀ k ∈ m.keys, k ∈ ks) : ks.foldl JsMap.delete m = JsMap.empty := by
  have hkeys : (ks.foldl JsMap.delete m).keys = [] := by
    apply List.eq_nil_iff_forall_not_mem.2
    intro x hx
    obtain ⟨h1, h2⟩ := (mem_keys_foldl_delete ks m x).1 hx
    exact h2 (h x h1)
  cases hm : ks.foldl JsMap.delete m with
  | mk entries =>
    rw [hm] at hkeys
    simp only [JsMap.keys, List.map_eq_nil_iff] at hkeys
    simp [JsMap.empty, hkeys]

theorem filterMap_lookup_keys {β γ : Type} (f : β → γ) (m : List (String × β))
    (h : (m.map Prod.fst).Nodup) :
    (m.map Prod.fst).filterMap (fun k => (lookupEntry m k).map f) = m.map (fun p => f p.2) := by
  induction m with
  | nil => simp
  | cons p m ih =>
    obtain ⟨a, w⟩ := p
    simp only [List.map_cons, List.nodup_cons] at h
    simp only [List.map_cons, List.filterMap_cons, lookupEntry, if_true, Option.map_some']
    congr 1
    rw [← ih h.2]
    apply List.filterMap_congr
    intro x hx
    have : a ≠ x := fun hax => h.1 (hax ▸ hx)
    simp [this]

theorem filterMap_closedHandle_closeCalls (ks : List String) (s : MeshRTC) :
    (ks.flatMap s.closeCalls).filterMap Effect.closedHandle
      = ks.filterMap (fun k => (s.peers.get k).map (fun pc => pc.handle)) := by
  induction ks with
  | nil => simp
  | cons k ks ih =>
    simp only [List.flatMap_cons, List.filterMap_append, ih, List.filterMap_cons]
    unfold MeshRTC.closeCalls
    cases h1 : s.peers.get k <;> cases h2 : s.dataChannels.get k <;>
      simp [Effect.closedHandle]

/-- C10. Local teardown: in every state the orchestrator reaches, `closeAll()` leaves
`peers`, `dataChannels` and `candidateBuffer` empty; the calls it adds are the closes of
the connections and data channels held, one `pc.close()` per connection that was in
`peers`, in map order and on distinct connections, followed by the close of the relay
socket. -/
theorem closeAll_teardown (localStream : Option (List String))
    (onPeerStream onPeerLeft onPeerJoined : Bool) (evs : List ClientEvent) :
    (((MeshRTC.new localStream onPeerStream onPeerLeft onPeerJoined).run evs).closeAll.peers
        = JsMap.empty
      ∧ ((MeshRTC.new localStream onPeerStream onPeerLeft onPeerJoined).run evs).closeAll.dataChannels
        = JsMap.empty
      ∧ ((MeshRTC.new localStream onPeerStream onPeerLeft onPeerJoined).run evs).closeAll.candidateBuffer
        = JsMap.empty)
    ∧ ∃ closes : List Effect,
        ((MeshRTC.new localStream onPeerStream onPeerLeft onPeerJoined).run evs).closeAll.log
          = ((MeshRTC.new localStream onPeerStream onPeerLeft onPeerJoined).run evs).log
              ++ closes ++ [.socketClose]
        ∧ closes.filterMap Effect.closedHandle
          = ((MeshRTC.new localStream onPeerStream onPeerLeft onPeerJoined).run evs).peers.entries.map
              (fun p => p.2.handle)
        ∧ (closes.filterMap Effect.closedHandle).Nodup
        ∧ ∀ e ∈ closes, (∃ h, e = .pcClose h) ∨ (∃ c, e = .dcClose c) := by
  have hwf : WellFormed ((MeshRTC.new localStream onPeerStream onPeerLeft onPeerJoined).run evs) :=
    wf_run evs _ (wf_new _ _ _ _)
  generalize (MeshRTC.new localStream onPeerStream onPeerLeft onPeerJoined).run evs = s at hwf
  obtain ⟨hp, hd, hc⟩ := foldl_closePeer_maps s.peers.keys s
  have hhandles : (s.peers.keys.flatMap s.closeCalls).filterMap Effect.closedHandle
      = s.peers.entries.map (fun p => p.2.handle) := by
    rw [filterMap_closedHandle_closeCalls]
    exact filterMap_lookup_keys (fun pc : PeerConnection => pc.handle) s.peers.entries
      hwf.keys_nodup
  refine ⟨⟨?_, ?_, ?_⟩, s.peers.keys.flatMap s.closeCalls, ?_, hhandles, ?_, ?_⟩
  · show (s.peers.keys.foldl MeshRTC._closePeer s).peers = _
    rw [hp]
    exact foldl_delete_empty _ _ (fun k hk => hk)
  · show (s.peers.keys.foldl MeshRTC._closePeer s).dataChannels = _
    rw [hd]
    exact foldl_delete_empty _ _ hwf.channels
  · show (s.peers.keys.foldl MeshRTC._closePeer s).candidateBuffer = _
    rw [hc]
    exact foldl_delete_empty _ _ hwf.buffers
  · show (s.peers.keys.foldl MeshRTC._closePeer s).log ++ [Effect.socketClose] = _
    rw [foldl_closePeer_log _ _ hwf.keys_nodup]
  · rw [hhandles]
    exact hwf.handles_nodup
  · intro e he
    obtain ⟨k, _, hek⟩ := List.mem_flatMap.1 he
    unfold MeshRTC.closeCalls at hek
    cases h1 : s.peers.get k <;> cases h2 : s.dataChannels.get k <;>
      simp [h1, h2] at hek
    · exact Or.inr ⟨_, hek⟩
    · exact Or.inl ⟨_, hek⟩
    · rcases hek with hek | hek
      · exact Or.inl ⟨_, hek⟩
      · exact Or.inr ⟨_, hek⟩

/-! ## Candidate buffering -/

theorem setEntry_setEntry {β : Type} (m : List (String × β)) (k : String) (v w : β) :
    setEntry (setEntry m k v) k w = setEntry m k w := by
  induction m with
  | nil => simp [setEntry]
  | cons p m ih =>
    obtain ⟨a, u⟩ := p
    by_cases h : a = k
    · simp [setEntry, h]
    · simp [setEntry, h, ih]

/-- An `ice-candidate` for a peer whose connection has no remote description is appended
to the buffer of that peer and nothing else happens. -/
theorem onSignal_candidate_buffered (s : MeshRTC) (p : String) (pc : PeerConnection)
    (c : String) (e : EngineReply) (hp : s.peers.get p = some pc)
    (hr : pc.remoteDescription = none) :
    s.step (.signal p "ice-candidate" c e)
      = { s with candidateBuffer :=
            s.candidateBuffer.set p ((s.candidateBuffer.get p).getD [] ++ [c]) } := by
  simp [MeshRTC.step, MeshRTC.onSignal, hp, hr]

/-- An `ice-candidate` for a peer whose connection has a remote description is applied at
once and not buffered. -/
theorem onSignal_candidate_applied (s : MeshRTC) (p : String) (pc : PeerConnection)
    (c : String) (e : EngineReply) (hp : s.peers.get p = some pc)
    (hr : pc.remoteDescription.isSome = true) :
    s.step (.signal p "ice-candidate" c e) = s.call [.addIceCandidate pc.handle c] := by
  simp [MeshRTC.step, MeshRTC.onSignal, hp, hr]

theorem run_candidates (cs : List (String × EngineReply)) (s : MeshRTC) (p : String)
    (pc : PeerConnection) (hp : s.peers.get p = some pc) (hr : pc.remoteDescription = none) :
    ∃ cb : JsMap (List String),
      s.run (cs.map (fun c => .signal p "ice-candidate" c.1 c.2))
          = { s with candidateBuffer := cb }
        ∧ (cb.get p).getD [] = (s.candidateBuffer.get p).getD [] ++ cs.map Prod.fst
        ∧ cb.delete p = s.candidateBuffer.delete p := by
  induction cs generalizing s with
  | nil => exact ⟨s.candidateBuffer, rfl, by simp, rfl⟩
  | cons c cs ih =>
    have h1 := onSignal_candidate_buffered s p pc c.1 c.2 hp hr
    obtain ⟨cb, hrun, hget, hdel⟩ := ih
      { s with candidateBuffer :=
          s.candidateBuffer.set p ((s.candidateBuffer.get p).getD [] ++ [c.1]) } hp
    refine ⟨cb, ?_, ?_, ?_⟩
    · simp only [List.map_cons, MeshRTC.run, List.foldl_cons]
      rw [h1]
      exact hrun
    · rw [hget, JsMap.get_set_same]
      simp
    · rw [hdel]
      exact JsMap.delete_set _ _ _

theorem client_run_append (s : MeshRTC) (xs ys : List ClientEvent) :
    s.run (xs ++ ys) = (s.run xs).run ys := by
  simp [MeshRTC.run, List.foldl_append]

/-- Candidate buffering when the handler runs to its end. For a known peer `p` whose
connection has no remote description, `N` `ice-candidate` signals from `p` followed by an
`answer` that sets the remote description, or by an `offer` that sets it and whose answer
is created, set as local description and sent, apply nothing before
`setRemoteDescription`, then call `addIceCandidate` once for each candidate already
buffered and each of the `N`, in order, and leave no buffer for `p`; and a candidate
arriving when the remote description is set is applied at once and not buffered. -/
theorem candidate_buffering_when_handler_completes (s : MeshRTC) (p : String)
    (pc : PeerConnection) (cs : List (String × EngineReply)) (desc : String)
    (engine : EngineReply) (hp : s.peers.get p = some pc) (hr : pc.remoteDescription = none)
    (hok : engine.setRemoteOk = true) :
    s.run (cs.map (fun c => .signal p "ice-candidate" c.1 c.2)
            ++ [.signal p "answer" desc engine])
        = { s with
            peers := s.peers.set p { pc with remoteDescription := some desc }
            candidateBuffer := s.candidateBuffer.delete p
            log := s.log ++ [.setRemoteDescription pc.handle desc]
              ++ ((s.candidateBuffer.get p).getD [] ++ cs.map Prod.fst).map
                  (fun c => .addIceCandidate pc.handle c) }
      ∧ (∀ answer, engine.answer = some answer → engine.setLocalOk = true →
          s.run (cs.map (fun c => .signal p "ice-candidate" c.1 c.2)
              ++ [.signal p "offer" desc engine])
            = { s with
                peers := s.peers.set p { pc with remoteDescription := some desc }
                candidateBuffer := s.candidateBuffer.delete p
                log := s.log ++ [.setRemoteDescription pc.handle desc, .createAnswer pc.handle,
                    .setLocalDescription pc.handle answer,
                    .socketEmit (.signal p "answer" answer)]
                  ++ ((s.candidateBuffer.get p).getD [] ++ cs.map Prod.fst).map
                      (fun c => .addIceCandidate pc.handle c) })
      ∧ ∀ (t : MeshRTC) (pc2 : PeerConnection) (c : String) (e : EngineReply),
          t.peers.get p = some pc2 → pc2.remoteDescription.isSome = true →
          t.step (.signal p "ice-candidate" c e)
            = { t with log := t.log ++ [.addIceCandidate pc2.handle c] } := by
  obtain ⟨cb, hrun, hget, hdel⟩ := run_candidates cs s p pc hp hr
  refine ⟨?_, ?_, ?_⟩
  · rw [client_run_append, hrun]
    simp [MeshRTC.run, MeshRTC.step, MeshRTC.onSignal, hp, hok, MeshRTC.call,
      MeshRTC._flushBufferedCandidates, JsMap.get_set_same, hget, hdel]
  · intro answer ha hl
    rw [client_run_append, hrun]
    simp [MeshRTC.run, MeshRTC.step, MeshRTC.onSignal, hp, hok, ha, hl, MeshRTC.call,
      MeshRTC._flushBufferedCandidates, JsMap.get_set_same, hget, hdel]
  · intro t pc2 c e h1 h2
    exact onSignal_candidate_applied t p pc2 c e h1 h2

/-- C5 at the failing input. "B" is a known peer without remote description and "c1" is
buffered for it; an `offer` from "B" sets the remote description, `createAnswer` rejects,
and the handler ends there: "c1" is never passed to `addIceCandidate` and stays in
`candidateBuffer`. -/
theorem candidate_flush_skipped_when_answer_fails :
    (((MeshRTC.new none false false false).run
        [.peerJoined "B" (some "bob"),
         .signal "B" "ice-candidate" "c1" { setRemoteOk := true, answer := none, setLocalOk := true },
         .signal "B" "offer" "sdp" { setRemoteOk := true, answer := none, setLocalOk := true }]).peers.get
        "B").map (fun pc => pc.remoteDescription) = some (some "sdp")
      ∧ ((MeshRTC.new none false false false).run
        [.peerJoined "B" (some "bob"),
         .signal "B" "ice-candidate" "c1" { setRemoteOk := true, answer := none, setLocalOk := true },
         .signal "B" "offer" "sdp" { setRemoteOk := true, answer := none, setLocalOk := true }]).candidateBuffer.get
        "B" = some ["c1"]
      ∧ ((MeshRTC.new none false false false).run
        [.peerJoined "B" (some "bob"),
         .signal "B" "ice-candidate" "c1" { setRemoteOk := true, answer := none, setLocalOk := true },
         .signal "B" "offer" "sdp" { setRemoteOk := true, answer := none, setLocalOk := true }]).log
        = [.newPeerConnection 0, .setRemoteDescription 0 "sdp", .createAnswer 0] := by
  decide

/-- Two candidates from "B" and then an offer whose answer succeeds: both are applied in order. -/
theorem candidate_buffering_when_handler_completes_witness :
    (((MeshRTC.new none false false false).step (.peerJoined "B" (some "bob"))).peers.get "B"
        = some { handle := 0, isInitiator := false, peerName := "bob", remoteDescription := none }
      ∧ (none : Option String) = none ∧ true = true)
    ∧ ((MeshRTC.new none false false false).step (.peerJoined "B" (some "bob"))).run
        ([("c1", { setRemoteOk := true, answer := some "a", setLocalOk := true }),
          ("c2", { setRemoteOk := true, answer := some "a", setLocalOk := true })].map
            (fun c => ClientEvent.signal "B" "ice-candidate" c.1 c.2)
          ++ [.signal "B" "offer" "sdp" { setRemoteOk := true, answer := some "a", setLocalOk := true }])
        = { (MeshRTC.new none false false false).step (.peerJoined "B" (some "bob")) with
            peers := ((MeshRTC.new none false false false).step
              (.peerJoined "B" (some "bob"))).peers.set "B"
                { handle := 0, isInitiator := false, peerName := "bob",
                  remoteDescription := some "sdp" }
            candidateBuffer := ((MeshRTC.new none false false false).step
              (.peerJoined "B" (some "bob"))).candidateBuffer.delete "B"
            log := ((MeshRTC.new none false false false).step (.peerJoined "B" (some "bob"))).log
              ++ [.setRemoteDescription 0 "sdp", .createAnswer 0, .setLocalDescription 0 "a",
                  .socketEmit (.signal "B" "answer" "a")]
              ++ [.addIceCandidate 0 "c1", .addIceCandidate 0 "c2"] } :=
  ⟨⟨by decide, rfl, rfl⟩,
    ((candidate_buffering_when_handler_completes
      ((MeshRTC.new none false false false).step (.peerJoined "B" (some "bob"))) "B"
      { handle := 0, isInitiator := false, peerName := "bob", remoteDescription := none }
      [("c1", { setRemoteOk := true, answer := some "a", setLocalOk := true }),
       ("c2", { setRemoteOk := true, answer := some "a", setLocalOk := true })] "sdp"
      { setRemoteOk := true, answer := some "a", setLocalOk := true }
      (by decide) rfl rfl).2.1 "a" rfl rfl)⟩

/-! ## Role assignment -/

theorem createConnection_get_new (s : MeshRTC) (id : String) (b : Bool) (n : Option String)
    (h : s.peers.get id = none) :
    (s._createConnection id b n).peers.get id
      = some { handle := s.nextHandle, isInitiator := b, peerName := n.getD "Peer",
               remoteDescription := none } := by
  unfold MeshRTC._createConnection
  have hhas : s.peers.has id = false := by simp [JsMap.has, h]
  cases hls : s.localStream <;> cases b <;>
    simp [hhas, hls, MeshRTC.call, MeshRTC._setupDataChannel, JsMap.get_set_same]

theorem createConnection_get_old (s : MeshRTC) (id k : String) (b : Bool) (n : Option String)
    (pc : PeerConnection) (h : s.peers.get k = some pc) :
    (s._createConnection id b n).peers.get k = some pc := by
  unfold MeshRTC._createConnection
  by_cases hhas : s.peers.has id = true
  · simp [hhas, h]
  · have hk : k ≠ id := by
      rintro rfl
      simp [JsMap.has, h] at hhas
    cases hls : s.localStream <;> cases b <;>
      simp [hhas, hls, MeshRTC.call, MeshRTC._setupDataChannel,
        JsMap.get_set_other _ _ _ _ hk, h]

theorem onPeerJoinedMsg_get_new (s : MeshRTC) (id : String) (n : Option String)
    (h : s.peers.get id = none) :
    (s.step (.peerJoined id n)).peers.get id
      = some { handle := s.nextHandle, isInitiator := false, peerName := n.getD "Peer",
               remoteDescription := none } := by
  simp only [MeshRTC.step, MeshRTC.onPeerJoinedMsg]
  split_ifs
  · exact createConnection_get_new (s.call _) id false n h
  · exact createConnection_get_new s id false n h

theorem onPeerJoinedMsg_get_old (s : MeshRTC) (id k : String) (n : Option String)
    (pc : PeerConnection) (h : s.peers.get k = some pc) :
    (s.step (.peerJoined id n)).peers.get k = some pc := by
  simp only [MeshRTC.step, MeshRTC.onPeerJoinedMsg]
  split_ifs
  · exact createConnection_get_old (s.call _) id k false n pc h
  · exact createConnection_get_old s id k false n pc h

theorem onPeers_get_old (list : List (String × Option String)) (s : MeshRTC) (k : String)
    (pc : PeerConnection) (h : s.peers.get k = some pc) :
    (s.step (.peers list)).peers.get k = some pc := by
  simp only [MeshRTC.step, MeshRTC.onPeers]
  induction list generalizing s with
  | nil => exact h
  | cons p list ih => exact ih _ (createConnection_get_old s p.1 k true p.2 pc h)

theorem onPeers_get_new (list : List (String × Option String)) (s : MeshRTC) (id : String)
    (hid : id ∈ list.map Prod.fst) (h : s.peers.get id = none) :
    ∃ pc, (s.step (.peers list)).peers.get id = some pc ∧ pc.isInitiator = true := by
  induction list generalizing s with
  | nil => simp at hid
  | cons p list ih =>
    by_cases hp : p.1 = id
    · refine ⟨{ handle := s.nextHandle, isInitiator := true, peerName := p.2.getD "Peer",
                 remoteDescription := none }, ?_, rfl⟩
      have h1 := createConnection_get_new s id true p.2 h
      have := onPeers_get_old list (s._createConnection id true p.2) id _ h1
      simp only [MeshRTC.step, MeshRTC.onPeers, List.foldl_cons, hp] at this ⊢
      exact this
    · have hid2 : id ∈ list.map Prod.fst := by
        simp only [List.map_cons, List.mem_cons] at hid
        rcases hid with hid | hid
        · exact absurd hid.symm hp
        · exact hid
      have hnone : (s._createConnection p.1 true p.2).peers.get id = none := by
        unfold MeshRTC._createConnection
        by_cases hhas : s.peers.has p.1 = true
        · simp [hhas, h]
        · cases hls : s.localStream <;>
            simp [hhas, hls, MeshRTC.call, MeshRTC._setupDataChannel,
              JsMap.get_set_other _ _ _ _ (Ne.symm hp), h]
      obtain ⟨pc, h1, h2⟩ := ih _ hid2 hnone
      exact ⟨pc, by simpa [MeshRTC.step, MeshRTC.onPeers] using h1, h2⟩

theorem step_negotiationneeded_initiator (s : MeshRTC) (p offer : String) (pc : PeerConnection)
    (h : s.peers.get p = some pc) (hi : pc.isInitiator = true) :
    s.step (.negotiationneeded p (some offer) true)
      = s.call [.createOffer pc.handle, .setLocalDescription pc.handle offer,
          .socketEmit (.signal p "offer" offer)] := by
  simp [MeshRTC.step, MeshRTC.onNegotiationNeeded, h, hi, MeshRTC.call]

theorem step_negotiationneeded_responder (s : MeshRTC) (p : String) (offer : Option String)
    (ok : Bool) (pc : PeerConnection) (h : s.peers.get p = some pc)
    (hi : pc.isInitiator = false) :
    s.step (.negotiationneeded p offer ok) = s := by
  simp [MeshRTC.step, MeshRTC.onNegotiationNeeded, h, hi]

/-! ## Scenarios of the relay with its clients -/

theorem system_run_append (MAX_PARTICIPANTS : Int) (sys : System) (xs ys : List SystemEvent) :
    System.run MAX_PARTICIPANTS sys (xs ++ ys)
      = System.run MAX_PARTICIPANTS (System.run MAX_PARTICIPANTS sys xs) ys := by
  simp [System.run, List.foldl_append]

/-- A `signal` addressed to a connected client whose own room holds nobody else is
handled by that client and changes nothing else. -/
theorem system_signal_single (MAX_PARTICIPANTS : Int) (sys : System) (id : String)
    (f : Option String) (dest type data : String) (engine : EngineReply) (c : MeshRTC)
    (hs : sys.server.sockets id ≠ none) (hd : dest ≠ "") (ht : type ≠ "")
    (hroom : sys.server.rooms dest = [dest]) (hc : sys.clients dest = some c) :
    System.step MAX_PARTICIPANTS sys
        (.signal id { sender := f, dest := dest, type := type, data := data } engine)
      = { server := sys.server,
          clients := upd sys.clients dest (some (c.step (.signal id type data engine))) } := by
  simp [System.step, Server.step, onSignal, hs, hd, ht, ioTo, hroom, deliver, hc,
    ServerMsg.toEvent]

theorem system_transport (MAX_PARTICIPANTS : Int) (sys : System) (id : String)
    (e : ClientEvent) (c : MeshRTC) (hc : sys.clients id = some c)
    (he : e.isTransport = true) :
    System.step MAX_PARTICIPANTS sys (.transport id e)
      = { sys with clients := upd sys.clients id (some (c.step e)) } := by
  simp [System.step, hc, he]

theorem displayName_ne_empty (name : String) : displayName name ≠ "" := by
  unfold displayName
  split_ifs with h
  · decide
  · exact h

/-- The relay and the two orchestrators at the end of the two-party scenario. -/
theorem twoPartyJoin_state (MAX_PARTICIPANTS : Int) (hmax : 2 ≤ MAX_PARTICIPANTS)
    (A B r nameA nameB : String) (hAB : A ≠ B) (hr : r ≠ "") (hrA : r ≠ A) (hrB : r ≠ B)
    (streamA streamB : Option (List String)) (a1 a2 a3 b1 b2 b3 : Bool) :
    (System.run MAX_PARTICIPANTS System.init
        (twoPartyJoin A B r nameA nameB streamA streamB a1 a2 a3 b1 b2 b3)).clients A
        = some ((((MeshRTC.new streamA a1 a2 a3).join r nameA).step (.peers [])).step
            (.peerJoined B (some (displayName nameB))))
      ∧ (System.run MAX_PARTICIPANTS System.init
          (twoPartyJoin A B r nameA nameB streamA streamB a1 a2 a3 b1 b2 b3)).clients B
        = some (((MeshRTC.new streamB b1 b2 b3).join r nameB).step
            (.peers [(A, some (displayName nameA))]))
      ∧ (System.run MAX_PARTICIPANTS System.init
          (twoPartyJoin A B r nameA nameB streamA streamB a1 a2 a3 b1 b2 b3)).server.rooms A = [A]
      ∧ (System.run MAX_PARTICIPANTS System.init
          (twoPartyJoin A B r nameA nameB streamA streamB a1 a2 a3 b1 b2 b3)).server.rooms B = [B]
      ∧ (System.run MAX_PARTICIPANTS System.init
          (twoPartyJoin A B r nameA nameB streamA streamB a1 a2 a3 b1 b2 b3)).server.rooms r
          = [A, B]
      ∧ (System.run MAX_PARTICIPANTS System.init
          (twoPartyJoin A B r nameA nameB streamA streamB a1 a2 a3 b1 b2 b3)).server.sockets A
          ≠ none
      ∧ (System.run MAX_PARTICIPANTS System.init
          (twoPartyJoin A B r nameA nameB streamA streamB a1 a2 a3 b1 b2 b3)).server.sockets B
          ≠ none := by
  have h0 : ¬ ((0:Int) ≥ MAX_PARTICIPANTS) := by omega
  have h1 : ¬ ((1:Int) ≥ MAX_PARTICIPANTS) := by omega
  have hBA : B ≠ A := Ne.symm hAB
  have hAr : A ≠ r := Ne.symm hrA
  have hBr : B ≠ r := Ne.symm hrB
  have hdn := displayName_ne_empty nameA
  refine ⟨?_, ?_, ?_, ?_, ?_, ?_, ?_⟩ <;>
    simp [twoPartyJoin, System.run, System.step, System.init, Server.step, Server.init,
      onConnection, onJoin, socketJoin, upd, setAdd, getRoomSize, emitTo, broadcastFrom, deliver,
      hAB, hBA, hr, hrA, hrB, hAr, hBr, h0, h1, ServerMsg.toEvent, peerName, hdn]

/-- The records the two orchestrators hold at the end of the two-party scenario. -/
theorem twoPartyJoin_records (A B r nameA nameB : String)
    (streamA streamB : Option (List String)) (a1 a2 a3 b1 b2 b3 : Bool) :
    ((((MeshRTC.new streamA a1 a2 a3).join r nameA).step (.peers [])).step
        (.peerJoined B (some (displayName nameB)))).peers.get B
        = some { handle := 0, isInitiator := false, peerName := displayName nameB,
                 remoteDescription := none }
      ∧ (((MeshRTC.new streamB b1 b2 b3).join r nameB).step
          (.peers [(A, some (displayName nameA))])).peers.get A
        = some { handle := 0, isInitiator := true, peerName := displayName nameA,
                 remoteDescription := none }
      ∧ ((((MeshRTC.new streamA a1 a2 a3).join r nameA).step (.peers [])).step
          (.peerJoined B (some (displayName nameB)))).candidateBuffer.get B = none
      ∧ (((MeshRTC.new streamB b1 b2 b3).join r nameB).step
          (.peers [(A, some (displayName nameA))])).candidateBuffer.get A = none := by
  have hA0 : (((MeshRTC.new streamA a1 a2 a3).join r nameA).step (.peers [])).peers.get B
      = none := by
    simp [MeshRTC.step, MeshRTC.onPeers, MeshRTC.join, MeshRTC.call, MeshRTC.new, JsMap.get,
      JsMap.empty, lookupEntry]
  have hB0 : ((MeshRTC.new streamB b1 b2 b3).join r nameB).peers.get A = none := by
    simp [MeshRTC.join, MeshRTC.call, MeshRTC.new, JsMap.get, JsMap.empty, lookupEntry]
  refine ⟨?_, ?_, ?_, ?_⟩
  · rw [onPeerJoinedMsg_get_new _ _ _ hA0]
    simp [MeshRTC.step, MeshRTC.onPeers, MeshRTC.join, MeshRTC.call, MeshRTC.new]
  · have := createConnection_get_new _ A true (some (displayName nameA)) hB0
    simpa [MeshRTC.step, MeshRTC.onPeers, MeshRTC.join, MeshRTC.call, MeshRTC.new] using this
  · cases streamA <;> cases a3 <;>
      simp [MeshRTC.step, MeshRTC.onPeers, MeshRTC.onPeerJoinedMsg, MeshRTC._createConnection,
        MeshRTC.join, MeshRTC.call, MeshRTC.new, JsMap.get, JsMap.has, JsMap.empty, lookupEntry]
  · cases streamB <;>
      simp [MeshRTC.step, MeshRTC.onPeers, MeshRTC._createConnection, MeshRTC._setupDataChannel,
        MeshRTC.join, MeshRTC.call, MeshRTC.new, JsMap.get, JsMap.has, JsMap.empty, lookupEntry]

theorem onSignal_offer_ok (s : MeshRTC) (p desc answer : String) (pc : PeerConnection)
    (hp : s.peers.get p = some pc) :
    s.step (.signal p "offer" desc { setRemoteOk := true, answer := some answer, setLocalOk := true })
      = { s with
          peers := s.peers.set p { pc with remoteDescription := some desc }
          candidateBuffer := s.candidateBuffer.delete p
          log := s.log ++ [.setRemoteDescription pc.handle desc, .createAnswer pc.handle,
              .setLocalDescription pc.handle answer, .socketEmit (.signal p "answer" answer)]
            ++ ((s.candidateBuffer.get p).getD []).map (fun c => .addIceCandidate pc.handle c) } := by
  simp [MeshRTC.step, MeshRTC.onSignal, hp, MeshRTC.call, MeshRTC._flushBufferedCandidates,
    JsMap.get_set_same]

theorem onSignal_answer_ok (s : MeshRTC) (p desc : String) (a : Option String) (b : Bool)
    (pc : PeerConnection) (hp : s.peers.get p = some pc) :
    s.step (.signal p "answer" desc { setRemoteOk := true, answer := a, setLocalOk := b })
      = { s with
          peers := s.peers.set p { pc with remoteDescription := some desc }
          candidateBuffer := s.candidateBuffer.delete p
          log := s.log ++ [.setRemoteDescription pc.handle desc]
            ++ ((s.candidateBuffer.get p).getD []).map (fun c => .addIceCandidate pc.handle c) } := by
  simp [MeshRTC.step, MeshRTC.onSignal, hp, MeshRTC.call, MeshRTC._flushBufferedCandidates,
    JsMap.get_set_same]

/-- C7, as stated, fails: in the scenario with capacity 2, the record "A" holds for "B" is
a Responder record, the record "B" holds for "A" is an Initiator record, and a
`negotiationneeded` event on the connection of "A" makes "A" send nothing. -/
theorem end_to_end_roles_counterexample :
    (System.run 2 System.init
        (twoPartyJoin "A" "B" "r1" "alice" "bob" none none false false false false false
          false)).roleOf "A" "B" = some false
      ∧ (System.run 2 System.init
          (twoPartyJoin "A" "B" "r1" "alice" "bob" none none false false false false false
            false)).roleOf "B" "A" = some true
      ∧ (System.run 2 System.init
          (twoPartyJoin "A" "B" "r1" "alice" "bob" none none false false false false false false
            ++ [.transport "A" (.negotiationneeded "B" (some "offer-sdp") true)])).logOf "A"
        = (System.run 2 System.init
          (twoPartyJoin "A" "B" "r1" "alice" "bob" none none false false false false false
            false)).logOf "A" := by
  decide

/-- C7, amended. End-to-end roles: when `A` joins the empty room `r` and then `B` joins it
(capacity at least 2), `B` is the Initiator toward `A` and `A` is the Responder toward
`B`: a `negotiationneeded` event makes `A` send nothing and makes `B` create an offer, set
it as local description and send it to `A`; the relay hands it to `A`, which sets it as
remote description, creates an answer, sets it and sends it to `B`; the relay hands that
to `B`, which sets it as remote description. -/
theorem end_to_end_roles (MAX_PARTICIPANTS : Int) (hmax : 2 ≤ MAX_PARTICIPANTS)
    (A B r nameA nameB offer answer : String) (hA : A ≠ "") (hB : B ≠ "") (hAB : A ≠ B)
    (hr : r ≠ "") (hrA : r ≠ A) (hrB : r ≠ B)
    (streamA streamB : Option (List String)) (a1 a2 a3 b1 b2 b3 : Bool) :
    (System.run MAX_PARTICIPANTS System.init
        (twoPartyJoin A B r nameA nameB streamA streamB a1 a2 a3 b1 b2 b3)).roleOf A B
        = some false
      ∧ (System.run MAX_PARTICIPANTS System.init
          (twoPartyJoin A B r nameA nameB streamA streamB a1 a2 a3 b1 b2 b3)).roleOf B A
        = some true
      ∧ (System.run MAX_PARTICIPANTS System.init
          (twoPartyJoin A B r nameA nameB streamA streamB a1 a2 a3 b1 b2 b3
            ++ [.transport A (.negotiationneeded B (some offer) true)])).logOf A
        = (System.run MAX_PARTICIPANTS System.init
          (twoPartyJoin A B r nameA nameB streamA streamB a1 a2 a3 b1 b2 b3)).logOf A
      ∧ (System.run MAX_PARTICIPANTS System.init
          (twoPartyJoin A B r nameA nameB streamA streamB a1 a2 a3 b1 b2 b3
            ++ [.transport B (.negotiationneeded A (some offer) true)])).logOf B
        = (System.run MAX_PARTICIPANTS System.init
          (twoPartyJoin A B r nameA nameB streamA streamB a1 a2 a3 b1 b2 b3)).logOf B
          ++ [.createOffer 0, .setLocalDescription 0 offer, .socketEmit (.signal A "offer" offer)]
      ∧ (System.run MAX_PARTICIPANTS System.init
          (twoPartyJoin A B r nameA nameB streamA streamB a1 a2 a3 b1 b2 b3
            ++ [.transport B (.negotiationneeded A (some offer) true),
                .signal B { sender := none, dest := A, type := "offer", data := offer }
                  { setRemoteOk := true, answer := some answer, setLocalOk := true }])).logOf A
        = (System.run MAX_PARTICIPANTS System.init
          (twoPartyJoin A B r nameA nameB streamA streamB a1 a2 a3 b1 b2 b3)).logOf A
          ++ [.setRemoteDescription 0 offer, .createAnswer 0, .setLocalDescription 0 answer,
              .socketEmit (.signal B "answer" answer)]
      ∧ (System.run MAX_PARTICIPANTS System.init
          (twoPartyJoin A B r nameA nameB streamA streamB a1 a2 a3 b1 b2 b3
            ++ [.transport B (.negotiationneeded A (some offer) true),
                .signal B { sender := none, dest := A, type := "offer", data := offer }
                  { setRemoteOk := true, answer := some answer, setLocalOk := true },
                .signal A { sender := none, dest := B, type := "answer", data := answer }
                  { setRemoteOk := true, answer := none, setLocalOk := true }])).logOf B
        = (System.run MAX_PARTICIPANTS System.init
          (twoPartyJoin A B r nameA nameB streamA streamB a1 a2 a3 b1 b2 b3)).logOf B
          ++ [.createOffer 0, .setLocalDescription 0 offer, .socketEmit (.signal A "offer" offer),
              .setRemoteDescription 0 answer] := by
  obtain ⟨hcA, hcB, hrA1, hrB1, -, hsA, hsB⟩ := twoPartyJoin_state MAX_PARTICIPANTS hmax A B r
    nameA nameB hAB hr hrA hrB streamA streamB a1 a2 a3 b1 b2 b3
  obtain ⟨hpa, hpb, hba, hbb⟩ := twoPartyJoin_records A B r nameA nameB streamA streamB
    a1 a2 a3 b1 b2 b3
  have hBA : B ≠ A := Ne.symm hAB
  simp only [system_run_append]
  generalize System.run MAX_PARTICIPANTS System.init
    (twoPartyJoin A B r nameA nameB streamA streamB a1 a2 a3 b1 b2 b3) = sys
    at hcA hcB hrA1 hrB1 hsA hsB
  generalize (((MeshRTC.new streamA a1 a2 a3).join r nameA).step (.peers [])).step
    (.peerJoined B (some (displayName nameB))) = cA at hcA hpa hba
  generalize ((MeshRTC.new streamB b1 b2 b3).join r nameB).step
    (.peers [(A, some (displayName nameA))]) = cB at hcB hpb hbb
  have htB := system_transport MAX_PARTICIPANTS sys B (.negotiationneeded A (some offer) true)
    cB hcB rfl
  rw [step_negotiationneeded_initiator cB A offer _ hpb rfl] at htB
  dsimp only at htB
  have hoffer := system_signal_single MAX_PARTICIPANTS
    { server := sys.server,
      clients := upd sys.clients B (some (cB.call [.createOffer 0, .setLocalDescription 0 offer,
        .socketEmit (.signal A "offer" offer)])) } B none A "offer" offer
    { setRemoteOk := true, answer := some answer, setLocalOk := true } cA hsB hA (by decide)
    hrA1 (by simp [upd, hAB, hcA])
  have hanswer := system_signal_single MAX_PARTICIPANTS
    { server := sys.server,
      clients := upd (upd sys.clients B (some (cB.call [.createOffer 0,
        .setLocalDescription 0 offer, .socketEmit (.signal A "offer" offer)]))) A
        (some (cA.step (.signal B "offer" offer
          { setRemoteOk := true, answer := some answer, setLocalOk := true }))) } A none B
    "answer" answer { setRemoteOk := true, answer := none, setLocalOk := true }
    (cB.call [.createOffer 0, .setLocalDescription 0 offer,
      .socketEmit (.signal A "offer" offer)]) hsA hB (by decide) hrB1 (by simp [upd, hBA])
  have hlogA := congrArg MeshRTC.log (onSignal_offer_ok cA B offer answer _ hpa)
  have hlogB := congrArg MeshRTC.log (onSignal_answer_ok
    (cB.call [.createOffer 0, .setLocalDescription 0 offer,
      .socketEmit (.signal A "offer" offer)]) A answer none true _ hpb)
  refine ⟨?_, ?_, ?_, ?_, ?_, ?_⟩
  · simp [System.roleOf, hcA, hpa]
  · simp [System.roleOf, hcB, hpb]
  · have htA := system_transport MAX_PARTICIPANTS sys A (.negotiationneeded B (some offer) true)
      cA hcA rfl
    rw [step_negotiationneeded_responder cA B _ _ _ hpa rfl] at htA
    simp [System.run, htA, System.logOf, upd, hcA]
  · simp [System.run, htB, System.logOf, upd, hcB, MeshRTC.call]
  · simp only [System.run, List.foldl_cons, List.foldl_nil, htB, hoffer]
    simp [System.logOf, upd, hcA, hlogA, hba]
  · simp only [System.run, List.foldl_cons, List.foldl_nil, htB, hoffer, hanswer]
    simp [System.logOf, upd, hcB, hlogB, hBA]
    simp [MeshRTC.call, hbb]

theorem deliver_other (engine : EngineReply) (out : List (String × ServerMsg))
    (clients : String → Option MeshRTC) (k : String) (h : ∀ p ∈ out, p.1 ≠ k) :
    deliver engine clients out k = clients k := by
  induction out generalizing clients with
  | nil => rfl
  | cons p out ih =>
    obtain ⟨dest, msg⟩ := p
    have hk : k ≠ dest := fun e => h (dest, msg) (List.mem_cons_self _ _) e.symm
    have hrest : ∀ q ∈ out, q.1 ≠ k := fun q hq => h q (List.mem_cons_of_mem _ hq)
    cases hd : clients dest with
    | none =>
      simp only [deliver, hd]
      exact ih _ hrest
    | some cd =>
      simp only [deliver, hd]
      rw [ih _ hrest]
      exact upd_other _ _ _ _ hk

/-- Handing out `peer-joined` notices for `c`: a client that holds a record for `c` keeps
it. -/
theorem deliver_peerJoined_keeps (engine : EngineReply) (c name : String) (xs : List String)
    (clients : String → Option MeshRTC) (k : String) (ck : MeshRTC) (pc : PeerConnection)
    (hk : clients k = some ck) (hpc : ck.peers.get c = some pc) :
    ∃ ck2, deliver engine clients (xs.map (fun id => (id, ServerMsg.peerJoined c name))) k
        = some ck2 ∧ ck2.peers.get c = some pc := by
  induction xs generalizing clients ck with
  | nil => exact ⟨ck, hk, hpc⟩
  | cons x xs ih =>
    simp only [List.map_cons, deliver]
    by_cases hx : x = k
    · subst hx
      simp only [hk]
      exact ih _ _ (upd_same _ _ _)
        (onPeerJoinedMsg_get_old ck c c (some name) pc hpc)
    · cases hcx : clients x with
      | none => exact ih _ ck hk hpc
      | some cx =>
        simp only []
        exact ih _ ck (by rw [upd_other _ _ _ _ (Ne.symm hx)]; exact hk) hpc

/-- Handing out `peer-joined` notices for `c`: an addressee that holds no record for `c`
ends with a Responder record for it. -/
theorem deliver_peerJoined_creates (engine : EngineReply) (c name : String) (xs : List String)
    (clients : String → Option MeshRTC) (k : String) (ck : MeshRTC) (hmem : k ∈ xs)
    (hk : clients k = some ck) (hnone : ck.peers.get c = none) :
    ∃ ck2 pc, deliver engine clients (xs.map (fun id => (id, ServerMsg.peerJoined c name))) k
        = some ck2 ∧ ck2.peers.get c = some pc ∧ pc.isInitiator = false := by
  induction xs generalizing clients with
  | nil => simp at hmem
  | cons x xs ih =>
    simp only [List.map_cons, deliver]
    by_cases hx : x = k
    · subst hx
      simp only [hk]
      obtain ⟨ck2, h1, h2⟩ := deliver_peerJoined_keeps engine c name xs
        (upd clients x (some (ck.step (ServerMsg.toEvent engine (.peerJoined c name))))) x _ _
        (upd_same _ _ _) (onPeerJoinedMsg_get_new ck c (some name) hnone)
      exact ⟨ck2, _, h1, h2, rfl⟩
    · have hmem2 : k ∈ xs := by
        rcases List.mem_cons.1 hmem with h | h
        · exact absurd h.symm hx
        · exact h
      cases hcx : clients x with
      | none => exact ih _ hmem2 hk
      | some cx =>
        simp only []
        exact ih _ hmem2 (by rw [upd_other _ _ _ _ (Ne.symm hx)]; exact hk)

theorem upd_upd {β : Type} (m : String → β) (k : String) (v w : β) :
    upd (upd m k v) k w = upd m k w := by
  funext x
  simp only [upd]
  split_ifs <;> rfl

/-- An accepted join, seen from the clients: the joiner handles its `join` call and the
`peers` snapshot, whose ids are the other members of the room, and then every other
member is handed the `peer-joined` notice. -/
theorem system_join_accept (MAX_PARTICIPANTS : Int) (sys : System) (c roomId name : String)
    (cc : MeshRTC) (hc : sys.server.sockets c ≠ none) (hroom : roomId ≠ "")
    (hfree : (getRoomSize sys.server roomId : Int) < MAX_PARTICIPANTS)
    (hcc : sys.clients c = some cc) :
    ∃ L : List (String × Option String),
      L.map Prod.fst = (sys.server.rooms roomId).filter (fun id => id != c)
      ∧ System.step MAX_PARTICIPANTS sys (.join c roomId name)
        = System.mk (onJoin MAX_PARTICIPANTS sys.server c roomId name).1
            (deliver { setRemoteOk := true, answer := none, setLocalOk := true }
              (upd sys.clients c (some ((cc.join roomId name).step (.peers L))))
              (((sys.server.rooms roomId).filter (fun id => id != c)).map
                (fun id => (id, ServerMsg.peerJoined c (displayName name))))) := by
  have hfree2 : ¬ ((getRoomSize sys.server roomId : Int) ≥ MAX_PARTICIPANTS) := by omega
  refine ⟨((sys.server.rooms roomId).filter (fun id => id != c)).map
      (fun id => (id, some (peerName (onJoin MAX_PARTICIPANTS sys.server c roomId name).1 id))),
    ?_, ?_⟩
  · simp [List.map_map, Function.comp_def]
  · simp only [System.step, hcc, Server.step, if_neg hc, onJoin, if_neg hroom, if_neg hfree2,
      emitTo, List.singleton_append, deliver, upd_same, broadcastFrom, ServerMsg.toEvent,
      upd_upd, socketJoin, filter_ne_setAdd, List.map_map, Function.comp_def]

/-- C6, as stated, fails. "A" and "B" are in room "r1" with "B" the Initiator; the
connection of "A" to "B" fails and "A" closes its record; "A" joins "r1" again. "A" now
holds an Initiator record for "B" from the `peers` snapshot, "B" was announced "A" by
`peer-joined` and still holds its Initiator record for "A", and both are members of
"r1": two Initiators. -/
theorem role_assignment_counterexample :
    (System.run 4 System.init
        (twoPartyJoin "A" "B" "r1" "alice" "bob" none none false false false false false true
          ++ [.transport "A" (.connectionstatechange "B" "failed"),
              .join "A" "r1" "alice"])).roleOf "A" "B" = some true
      ∧ (System.run 4 System.init
        (twoPartyJoin "A" "B" "r1" "alice" "bob" none none false false false false false true
          ++ [.transport "A" (.connectionstatechange "B" "failed"),
              .join "A" "r1" "alice"])).roleOf "B" "A" = some true
      ∧ Effect.onPeerJoined "A" "alice" ∈ (System.run 4 System.init
        (twoPartyJoin "A" "B" "r1" "alice" "bob" none none false false false false false true
          ++ [.transport "A" (.connectionstatechange "B" "failed"),
              .join "A" "r1" "alice"])).logOf "B"
      ∧ (System.run 4 System.init
        (twoPartyJoin "A" "B" "r1" "alice" "bob" none none false false false false false true
          ++ [.transport "A" (.connectionstatechange "B" "failed"),
              .join "A" "r1" "alice"])).server.rooms "r1" = ["A", "B"] := by
  decide

/-- Roles created by one join. A client that holds no record for a peer creates one as
Initiator when the peer is listed in a `peers` snapshot and as Responder when the peer is
announced by `peer-joined`, and a record it already holds is kept as it is; when the
relay accepts a join of a room by `c` while `b` is a member of it and neither holds a
record for the other, handling the messages of that join leaves `c` with an Initiator
record for `b` and `b` with a Responder record for `c`. -/
theorem roles_created_by_join (MAX_PARTICIPANTS : Int) (sys : System) (c b roomId name : String)
    (cc cb : MeshRTC) (hc : sys.server.sockets c ≠ none) (hroom : roomId ≠ "")
    (hfree : (getRoomSize sys.server roomId : Int) < MAX_PARTICIPANTS)
    (hmem : b ∈ sys.server.rooms roomId) (hbc : b ≠ c)
    (hcc : sys.clients c = some cc) (hcb : sys.clients b = some cb)
    (hc0 : cc.peers.get b = none) (hb0 : cb.peers.get c = none) :
    (∀ (s : MeshRTC) (list : List (String × Option String)) (id : String),
        id ∈ list.map Prod.fst → s.peers.get id = none →
        ((s.step (.peers list)).peers.get id).map (fun pc => pc.isInitiator) = some true)
      ∧ (∀ (s : MeshRTC) (id : String) (n : Option String), s.peers.get id = none →
        ((s.step (.peerJoined id n)).peers.get id).map (fun pc => pc.isInitiator) = some false)
      ∧ (∀ (s : MeshRTC) (list : List (String × Option String)) (id k : String)
          (n : Option String) (pc : PeerConnection), s.peers.get k = some pc →
        (s.step (.peers list)).peers.get k = some pc
          ∧ (s.step (.peerJoined id n)).peers.get k = some pc)
      ∧ (System.step MAX_PARTICIPANTS sys (.join c roomId name)).roleOf c b = some true
      ∧ (System.step MAX_PARTICIPANTS sys (.join c roomId name)).roleOf b c = some false := by
  obtain ⟨L, hL, hstep⟩ := system_join_accept MAX_PARTICIPANTS sys c roomId name cc hc hroom
    hfree hcc
  have hb : b ∈ (sys.server.rooms roomId).filter (fun id => id != c) :=
    List.mem_filter.2 ⟨hmem, by simpa using hbc⟩
  refine ⟨?_, ?_, ?_, ?_, ?_⟩
  · intro s list id hid hnone
    obtain ⟨pc, h1, h2⟩ := onPeers_get_new list s id hid hnone
    simp [h1, h2]
  · intro s id n hnone
    simp [onPeerJoinedMsg_get_new s id n hnone]
  · intro s list id k n pc h
    exact ⟨onPeers_get_old list s k pc h, onPeerJoinedMsg_get_old s id k n pc h⟩
  · -- the joiner
    rw [hstep]
    simp only [System.roleOf]
    rw [deliver_other]
    · simp only [upd_same]
      obtain ⟨pc, h1, h2⟩ := onPeers_get_new L (cc.join roomId name) b (hL ▸ hb)
        (by simpa [MeshRTC.join, MeshRTC.call] using hc0)
      simp [h1, h2]
    · intro p hp
      simp only [List.mem_map, List.mem_filter] at hp
      obtain ⟨a, ⟨_, hne⟩, rfl⟩ := hp
      simpa using hne
  · -- the member
    rw [hstep]
    simp only [System.roleOf]
    obtain ⟨ck2, pc, h1, h2, h3⟩ := deliver_peerJoined_creates
      { setRemoteOk := true, answer := none, setLocalOk := true } c (displayName name)
      ((sys.server.rooms roomId).filter (fun id => id != c))
      (upd sys.clients c (some ((cc.join roomId name).step (.peers L)))) b cb hb
      (by rw [upd_other _ _ _ _ hbc]; exact hcb) hb0
    rw [h1]
    simp [h2, h3]

/-- The join of "r1" by "A" while "B" is in it: "A" becomes Initiator, "B" Responder. -/
theorem roles_created_by_join_witness :
    ((System.run 4 System.init
          [.connect "A" none false false false, .connect "B" none false false false,
           .join "B" "r1" "bob"]).server.sockets "A" ≠ none
      ∧ "r1" ≠ ""
      ∧ (getRoomSize (System.run 4 System.init
          [.connect "A" none false false false, .connect "B" none false false false,
           .join "B" "r1" "bob"]).server "r1" : Int) < 4
      ∧ "B" ∈ (System.run 4 System.init
          [.connect "A" none false false false, .connect "B" none false false false,
           .join "B" "r1" "bob"]).server.rooms "r1"
      ∧ "B" ≠ "A"
      ∧ (System.run 4 System.init
          [.connect "A" none false false false, .connect "B" none false false false,
           .join "B" "r1" "bob"]).clients "A" = some (MeshRTC.new none false false false)
      ∧ (System.run 4 System.init
          [.connect "A" none false false false, .connect "B" none false false false,
           .join "B" "r1" "bob"]).clients "B"
          = some (((MeshRTC.new none false false false).join "r1" "bob").step (.peers []))
      ∧ (MeshRTC.new none false false false).peers.get "B" = none
      ∧ (((MeshRTC.new none false false false).join "r1" "bob").step (.peers [])).peers.get "A"
          = none)
    ∧ ((∀ (s : MeshRTC) (list : List (String × Option String)) (id : String),
        id ∈ list.map Prod.fst → s.peers.get id = none →
        ((s.step (.peers list)).peers.get id).map (fun pc => pc.isInitiator) = some true)
      ∧ (∀ (s : MeshRTC) (id : String) (n : Option String), s.peers.get id = none →
        ((s.step (.peerJoined id n)).peers.get id).map (fun pc => pc.isInitiator) = some false)
      ∧ (∀ (s : MeshRTC) (list : List (String × Option String)) (id k : String)
          (n : Option String) (pc : PeerConnection), s.peers.get k = some pc →
        (s.step (.peers list)).peers.get k = some pc
          ∧ (s.step (.peerJoined id n)).peers.get k = some pc)
      ∧ (System.step 4 (System.run 4 System.init
          [.connect "A" none false false false, .connect "B" none false false false,
           .join "B" "r1" "bob"]) (.join "A" "r1" "alice")).roleOf "A" "B" = some true
      ∧ (System.step 4 (System.run 4 System.init
          [.connect "A" none false false false, .connect "B" none false false false,
           .join "B" "r1" "bob"]) (.join "A" "r1" "alice")).roleOf "B" "A" = some false) :=
  ⟨⟨by decide, by decide, by decide, by decide, by decide, by decide, by decide, by decide,
      by decide⟩,
    roles_created_by_join 4 _ "A" "B" "r1" "alice" (MeshRTC.new none false false false)
      (((MeshRTC.new none false false false).join "r1" "bob").step (.peers []))
      (by decide) (by decide) (by decide)
      (by decide) (by decide) (by decide) (by decide) (by decide) (by decide)⟩

/-- The scenario of C7 as amended with capacity 2, ids "A" and "B" and room "r1". -/
theorem end_to_end_roles_witness :
    ((2 : Int) ≤ 2 ∧ "A" ≠ "" ∧ "B" ≠ "" ∧ "A" ≠ "B" ∧ "r1" ≠ "" ∧ "r1" ≠ "A" ∧ "r1" ≠ "B")
    ∧ ((System.run 2 System.init
        (twoPartyJoin "A" "B" "r1" "alice" "bob" none none false false false false false
          false)).roleOf "A" "B" = some false
      ∧ (System.run 2 System.init
          (twoPartyJoin "A" "B" "r1" "alice" "bob" none none false false false false false
            false)).roleOf "B" "A" = some true
      ∧ (System.run 2 System.init
          (twoPartyJoin "A" "B" "r1" "alice" "bob" none none false false false false false false
            ++ [.transport "A" (.negotiationneeded "B" (some "o") true)])).logOf "A"
        = (System.run 2 System.init
          (twoPartyJoin "A" "B" "r1" "alice" "bob" none none false false false false false
            false)).logOf "A"
      ∧ (System.run 2 System.init
          (twoPartyJoin "A" "B" "r1" "alice" "bob" none none false false false false false false
            ++ [.transport "B" (.negotiationneeded "A" (some "o") true)])).logOf "B"
        = (System.run 2 System.init
          (twoPartyJoin "A" "B" "r1" "alice" "bob" none none false false false false false
            false)).logOf "B"
          ++ [.createOffer 0, .setLocalDescription 0 "o", .socketEmit (.signal "A" "offer" "o")]
      ∧ (System.run 2 System.init
          (twoPartyJoin "A" "B" "r1" "alice" "bob" none none false false false false false false
            ++ [.transport "B" (.negotiationneeded "A" (some "o") true),
                .signal "B" { sender := none, dest := "A", type := "offer", data := "o" }
                  { setRemoteOk := true, answer := some "a", setLocalOk := true }])).logOf "A"
        = (System.run 2 System.init
          (twoPartyJoin "A" "B" "r1" "alice" "bob" none none false false false false false
            false)).logOf "A"
          ++ [.setRemoteDescription 0 "o", .createAnswer 0, .setLocalDescription 0 "a",
              .socketEmit (.signal "B" "answer" "a")]
      ∧ (System.run 2 System.init
          (twoPartyJoin "A" "B" "r1" "alice" "bob" none none false false false false false false
            ++ [.transport "B" (.negotiationneeded "A" (some "o") true),
                .signal "B" { sender := none, dest := "A", type := "offer", data := "o" }
                  { setRemoteOk := true, answer := some "a", setLocalOk := true },
                .signal "A" { sender := none, dest := "B", type := "answer", data := "a" }
                  { setRemoteOk := true, answer := none, setLocalOk := true }])).logOf "B"
        = (System.run 2 System.init
          (twoPartyJoin "A" "B" "r1" "alice" "bob" none none false false false false false
            false)).logOf "B"
          ++ [.createOffer 0, .setLocalDescription 0 "o", .socketEmit (.signal "A" "offer" "o"),
              .setRemoteDescription 0 "a"]) :=
  ⟨⟨by decide, by decide, by decide, by decide, by decide, by decide, by decide⟩,
    end_to_end_roles 2 (by decide) "A" "B" "r1" "alice" "bob" "o" "a" (by decide) (by decide)
      (by decide) (by decide) (by decide) (by decide) none none false false false false false
      false⟩

/-! ## Roles along a run -/

theorem createConnection_get_other (s : MeshRTC) (id x : String) (b : Bool)
    (n : Option String) (hx : x ≠ id) :
    (s._createConnection id b n).peers.get x = s.peers.get x := by
  unfold MeshRTC._createConnection
  by_cases hhas : s.peers.has id = true
  · simp [hhas]
  · cases hls : s.localStream <;> cases b <;>
      simp [hhas, hls, MeshRTC.call, MeshRTC._setupDataChannel,
        JsMap.get_set_other _ _ _ _ hx]

theorem roleOf_createConnection (s : MeshRTC) (id x : String) (b : Bool) (n : Option String) :
    (s._createConnection id b n).roleOf x
      = if x = id ∧ s.roleOf id = none then some b else s.roleOf x := by
  unfold MeshRTC.roleOf
  by_cases hx : x = id
  · subst hx
    cases h : s.peers.get x with
    | none => simp [createConnection_get_new s x b n h]
    | some pc => simp [createConnection_get_old s x x b n pc h]
  · simp [hx, createConnection_get_other s id x b n hx]

theorem roleOf_call (s : MeshRTC) (es : List Effect) (x : String) :
    (s.call es).roleOf x = s.roleOf x := rfl

theorem roleOf_onPeers (list : List (String × Option String)) (s : MeshRTC) (x : String) :
    (s.step (.peers list)).roleOf x
      = if s.roleOf x = none ∧ x ∈ list.map Prod.fst then some true else s.roleOf x := by
  simp only [MeshRTC.step, MeshRTC.onPeers]
  induction list generalizing s with
  | nil => simp
  | cons p list ih =>
    simp only [List.foldl_cons, ih, roleOf_createConnection, List.map_cons, List.mem_cons]
    by_cases hx : x = p.1
    · subst hx
      cases h : s.roleOf p.1 <;> simp
    · have h1 : (if x = p.1 ∧ s.roleOf p.1 = none then some true else s.roleOf x)
          = s.roleOf x := if_neg (fun h => hx h.1)
      rw [h1]
      simp only [hx, false_or]

theorem roleOf_peerJoined (s : MeshRTC) (id x : String) (n : Option String) :
    (s.step (.peerJoined id n)).roleOf x
      = if x = id ∧ s.roleOf id = none then some false else s.roleOf x := by
  have h1 : ∀ t : MeshRTC, t.peers = s.peers →
      (t._createConnection id false n).roleOf x
        = if x = id ∧ s.roleOf id = none then some false else s.roleOf x := by
    intro t ht
    rw [roleOf_createConnection]
    simp only [MeshRTC.roleOf, ht]
  by_cases hj : s.onPeerJoined = true
  · simp only [MeshRTC.step, MeshRTC.onPeerJoinedMsg, if_pos hj]
    exact h1 _ rfl
  · simp only [MeshRTC.step, MeshRTC.onPeerJoinedMsg, if_neg hj]
    exact h1 _ rfl

theorem roleOf_closePeer (s : MeshRTC) (id x : String) :
    (s._closePeer id).roleOf x = if x = id then none else s.roleOf x := by
  unfold MeshRTC.roleOf
  rw [closePeer_peers]
  by_cases hx : x = id
  · subst hx
    simp [JsMap.get_delete_same]
  · simp [hx, JsMap.get_delete_other _ _ _ hx]

theorem roleOf_peerLeft (s : MeshRTC) (id x : String) :
    (s.step (.peerLeft id)).roleOf x = if x = id then none else s.roleOf x := by
  by_cases hj : (s._closePeer id).onPeerLeft = true
  · simp only [MeshRTC.step, MeshRTC.onPeerLeftMsg, if_pos hj, roleOf_call, roleOf_closePeer]
  · simp only [MeshRTC.step, MeshRTC.onPeerLeftMsg, if_neg hj, roleOf_closePeer]

theorem roleOf_flush (s : MeshRTC) (id x : String) :
    (s._flushBufferedCandidates id).roleOf x = s.roleOf x := by
  unfold MeshRTC._flushBufferedCandidates MeshRTC.roleOf
  cases h : s.peers.get id <;> simp [MeshRTC.call]

theorem roleOf_setDescription (s : MeshRTC) (p x : String) (pc : PeerConnection)
    (d : Option String) (h : s.peers.get p = some pc) :
    ((s.peers.set p { pc with remoteDescription := d }).get x).map (fun q => q.isInitiator)
      = s.roleOf x := by
  unfold MeshRTC.roleOf
  by_cases hx : x = p
  · subst hx
    simp [JsMap.get_set_same, h]
  · simp [JsMap.get_set_other _ _ _ _ hx]

theorem roleOf_signal (s : MeshRTC) (sender type data : String) (engine : EngineReply)
    (x : String) : (s.step (.signal sender type data engine)).roleOf x = s.roleOf x := by
  simp only [MeshRTC.step, MeshRTC.onSignal]
  cases hg : s.peers.get sender with
  | none => rfl
  | some pc =>
    have hset := roleOf_setDescription s sender x pc (some data) hg
    simp only
    repeat' split
    all_goals first
      | rfl
      | (rw [roleOf_flush]; exact hset)
      | exact hset

theorem run_cons (s : MeshRTC) (e : ClientEvent) (evs : List ClientEvent) :
    s.run (e :: evs) = (s.step e).run evs := rfl

/-- Delivery, client by client: each client runs the events of its own messages. -/
theorem deliver_eq (engine : EngineReply) (out : List (String × ServerMsg))
    (clients : String → Option MeshRTC) (k : String) :
    deliver engine clients out k = (clients k).map (fun c => c.run (inbox engine out k)) := by
  induction out generalizing clients with
  | nil =>
    cases h : clients k <;> simp [deliver, inbox, MeshRTC.run, h]
  | cons p out ih =>
    obtain ⟨dest, msg⟩ := p
    by_cases hk : dest = k
    · subst hk
      cases hd : clients dest with
      | none => simp [deliver, hd, ih]
      | some cd =>
        simp only [deliver, hd, ih, upd_same, Option.map_some']
        simp [inbox, run_cons]
    · have hk2 : k ≠ dest := Ne.symm hk
      have hin : inbox engine ((dest, msg) :: out) k = inbox engine out k := by
        simp [inbox, List.filter_cons, hk]
      cases hd : clients dest with
      | none => simp only [deliver, hd, ih, hin]
      | some cd => simp only [deliver, hd, ih, hin, upd_other _ _ _ _ hk2]

theorem mem_inbox (engine : EngineReply) (out : List (String × ServerMsg)) (k : String)
    (e : ClientEvent) :
    e ∈ inbox engine out k ↔ ∃ m, (k, m) ∈ out ∧ e = m.toEvent engine := by
  simp only [inbox, List.mem_map, List.mem_filter, beq_iff_eq]
  constructor
  · rintro ⟨p, ⟨hp, hpk⟩, rfl⟩
    exact ⟨p.2, by rw [← hpk]; exact hp, rfl⟩
  · rintro ⟨m, hm, rfl⟩
    exact ⟨(k, m), ⟨hm, rfl⟩, rfl⟩

theorem inbox_eq_nil_iff (engine : EngineReply) (out : List (String × ServerMsg)) (k : String) :
    inbox engine out k = [] ↔ ∀ m, (k, m) ∉ out := by
  rw [List.eq_nil_iff_forall_not_mem]
  constructor
  · intro h m hm
    exact h _ ((mem_inbox engine out k _).2 ⟨m, hm, rfl⟩)
  · intro h e he
    obtain ⟨m, hm, -⟩ := (mem_inbox engine out k e).1 he
    exact h m hm

theorem roleOf_run_peerJoined (c : String) (n : Option String) (evs : List ClientEvent)
    (s : MeshRTC) (x : String) (h : ∀ e ∈ evs, e = .peerJoined c n) :
    (s.run evs).roleOf x
      = if x = c ∧ s.roleOf c = none ∧ evs ≠ [] then some false else s.roleOf x := by
  induction evs generalizing s with
  | nil => simp [MeshRTC.run]
  | cons e evs ih =>
    have he : e = .peerJoined c n := h e (List.mem_cons_self _ _)
    subst he
    rw [run_cons, ih _ (fun e he => h e (List.mem_cons_of_mem _ he))]
    simp only [roleOf_peerJoined]
    by_cases hx : x = c
    · subst hx
      cases hr : s.roleOf x <;> simp
    · simp [hx]

theorem roleOf_run_peerLeft (d : String) (evs : List ClientEvent) (s : MeshRTC) (x : String)
    (h : ∀ e ∈ evs, e = .peerLeft d) :
    (s.run evs).roleOf x = if x = d ∧ evs ≠ [] then none else s.roleOf x := by
  induction evs generalizing s with
  | nil => simp [MeshRTC.run]
  | cons e evs ih =>
    have he : e = .peerLeft d := h e (List.mem_cons_self _ _)
    subst he
    rw [run_cons, ih _ (fun e he => h e (List.mem_cons_of_mem _ he))]
    simp only [roleOf_peerLeft]
    by_cases hx : x = d
    · subst hx
      simp
    · simp [hx]


theorem roleOf_keeps (s : MeshRTC) (e : ClientEvent) (he : e.keepsRoles = true) (x : String) :
    (s.step e).roleOf x = s.roleOf x := by
  cases e with
  | errorMessage msg => rfl
  | roomFull roomId max => rfl
  | peers list => simp [ClientEvent.keepsRoles] at he
  | peerJoined id name => simp [ClientEvent.keepsRoles] at he
  | signal sender type data engine => exact roleOf_signal s sender type data engine x
  | peerLeft id => simp [ClientEvent.keepsRoles] at he
  | track peerId stream =>
    simp only [MeshRTC.step]
    repeat' split
    all_goals rfl
  | icecandidate peerId candidate =>
    simp only [MeshRTC.step]
    repeat' split
    all_goals rfl
  | connectionstatechange peerId connectionState =>
    simp only [ClientEvent.keepsRoles, Bool.not_eq_true', decide_eq_false_iff_not] at he
    simp only [MeshRTC.step]
    split
    · rw [if_neg he]
    · rfl
  | datachannel peerId channel =>
    simp only [MeshRTC.step]
    repeat' split
    all_goals rfl
  | negotiationneeded peerId offer setLocalOk =>
    simp only [MeshRTC.step, MeshRTC.onNegotiationNeeded]
    repeat' split
    all_goals rfl
  | dataChannelClose peerId => rfl
  | join roomId name => rfl
  | closeAll => simp [ClientEvent.keepsRoles] at he

theorem roleOf_run_keeps (evs : List ClientEvent) (s : MeshRTC)
    (h : ∀ e ∈ evs, e.keepsRoles = true) : (s.run evs).roleOf = s.roleOf := by
  induction evs generalizing s with
  | nil => rfl
  | cons e evs ih =>
    rw [run_cons, ih _ (fun e he => h e (List.mem_cons_of_mem _ he))]
    funext x
    exact roleOf_keeps s e (h e (List.mem_cons_self _ _)) x

theorem roles_deliver (engine : EngineReply) (out : List (String × ServerMsg))
    (clients : String → Option MeshRTC) (k : String) :
    (deliver engine clients out k).map MeshRTC.roleOf
      = (clients k).map (fun c => (c.run (inbox engine out k)).roleOf) := by
  rw [deliver_eq]
  cases clients k <;> rfl

/-- Delivering messages whose handlers touch no role leaves the roles as they are. -/
theorem roles_deliver_keeps (engine : EngineReply) (out : List (String × ServerMsg))
    (clients : String → Option MeshRTC) (k : String)
    (h : ∀ p ∈ out, (p.2.toEvent engine).keepsRoles = true) :
    (deliver engine clients out k).map MeshRTC.roleOf = (clients k).map MeshRTC.roleOf := by
  rw [roles_deliver]
  cases hk : clients k with
  | none => rfl
  | some c =>
    simp only [Option.map_some', Option.some.injEq]
    apply roleOf_run_keeps
    intro e he
    obtain ⟨m, hm, rfl⟩ := (mem_inbox engine out k e).1 he
    exact h (k, m) hm

theorem sysinv_same (sys sys2 : System) (hs : sys2.server = sys.server)
    (hr : sys2.roles = sys.roles) (h : SysInv sys) : SysInv sys2 := by
  constructor
  · rw [hs]; exact h.cons
  · rw [hs, hr]; exact h.conn
  · rw [hs]; exact h.members
  · rw [hs, hr]; exact h.records

theorem sysinv_init : SysInv System.init := by
  constructor
  · exact consistent_init
  · intro x; simp [System.roles, System.init, Server.init]
  · intro r x hx; simp [System.init, Server.init] at hx
  · intro y ρy x b hy; simp [System.roles, System.init] at hy

theorem sysinv_signal (MAX_PARTICIPANTS : Int) (sys : System) (id : String)
    (req : SignalRequest) (engine : EngineReply) (h : SysInv sys) :
    SysInv (System.step MAX_PARTICIPANTS sys (.signal id req engine)) := by
  refine sysinv_same sys _ ?_ ?_ h
  · simp only [System.step, Server.step, onSignal]
    split_ifs <;> rfl
  · funext k
    simp only [System.step, System.roles]
    apply roles_deliver_keeps
    intro p hp
    simp only [Server.step, onSignal] at hp
    split_ifs at hp
    · simp at hp
    · simp at hp
    · simp only [ioTo, List.mem_map] at hp
      obtain ⟨a, -, rfl⟩ := hp
      rfl

theorem sysinv_transport (MAX_PARTICIPANTS : Int) (sys : System) (id : String)
    (e : ClientEvent) (he : (SystemEvent.transport id e).oneSidedClose = false)
    (h : SysInv sys) : SysInv (System.step MAX_PARTICIPANTS sys (.transport id e)) := by
  simp only [System.step]
  cases hc : sys.clients id with
  | none => exact h
  | some c =>
    simp only
    split_ifs with ht
    · refine sysinv_same sys _ rfl ?_ h
      funext k
      simp only [System.roles, upd]
      split_ifs with hk
      · subst hk
        rw [hc]
        simp only [Option.map_some', Option.some.injEq]
        funext x
        apply roleOf_keeps
        cases e <;> simp_all [ClientEvent.isTransport, ClientEvent.keepsRoles,
          SystemEvent.oneSidedClose]
      · rfl
    · exact h

theorem sysinv_connect (MAX_PARTICIPANTS : Int) (sys : System) (id : String)
    (ls : Option (List String)) (a b c : Bool) (h : SysInv sys) :
    SysInv (System.step MAX_PARTICIPANTS sys (.connect id ls a b c)) := by
  simp only [System.step]
  split_ifs with hg
  swap
  · exact h
  obtain ⟨hrooms, hsock⟩ := hg
  have hsrv : (Server.step MAX_PARTICIPANTS sys.server (.connection id)).1
      = socketJoin { sys.server with
          sockets := upd sys.server.sockets id (some { name := none }) } id id := by
    simp [Server.step, onConnection, hrooms, hsock]
  have hroles : ∀ x, x ≠ id →
      System.roles (System.mk (Server.step MAX_PARTICIPANTS sys.server (.connection id)).1
        (upd sys.clients id (some (MeshRTC.new ls a b c)))) x = sys.roles x := by
    intro x hx
    simp [System.roles, upd, hx]
  have hmem : ∀ r x, x ∈ (Server.step MAX_PARTICIPANTS sys.server (.connection id)).1.rooms r
      ↔ (r = id ∧ x = id) ∨ (r ≠ id ∧ x ∈ sys.server.rooms r) := by
    intro r x
    rw [hsrv]
    by_cases hr : r = id
    · subst hr
      simp [socketJoin, upd, hrooms, setAdd]
    · simp [socketJoin, upd, hr]
  have hsk : ∀ x, (Server.step MAX_PARTICIPANTS sys.server (.connection id)).1.sockets x
      = if x = id then some { name := none } else sys.server.sockets x := by
    intro x
    rw [hsrv]
    simp [socketJoin, upd]
  constructor
  · exact consistent_step MAX_PARTICIPANTS sys.server _ h.cons
  · intro x
    by_cases hx : x = id
    · subst hx
      simp [System.roles, upd, hsk]
    · rw [hroles x hx, hsk, if_neg hx]
      exact h.conn x
  · intro r x hx
    rcases (hmem r x).1 hx with ⟨-, rfl⟩ | ⟨-, hx2⟩
    · simp [hsk]
    · have := h.members r x hx2
      rw [hsk]
      split_ifs
      · simp
      · exact this
  · intro y ρy x b hy hb
    by_cases hyid : y = id
    · subst hyid
      simp only [System.roles, upd_same, Option.map_some', Option.some.injEq] at hy
      subst hy
      simp [MeshRTC.roleOf, MeshRTC.new, JsMap.get, JsMap.empty, lookupEntry] at hb
    · rw [hroles y hyid] at hy
      obtain ⟨hxy, hcase⟩ := h.records y ρy x b hy hb
      refine ⟨hxy, ?_⟩
      rcases hcase with ⟨ρx, hρx, hρxy, r, hxr, hyr⟩ | ⟨hnone, hyx⟩
      · have hxid : x ≠ id := by
          rintro rfl
          rw [(h.conn x).2 hsock] at hρx
          cases hρx
        have hrid : r ≠ id := by
          rintro rfl
          rw [hrooms] at hxr
          simp at hxr
        exact Or.inl ⟨ρx, by rw [hroles x hxid]; exact hρx, hρxy, r,
          (hmem r x).2 (Or.inr ⟨hrid, hxr⟩), (hmem r y).2 (Or.inr ⟨hrid, hyr⟩)⟩
      · have hxid : x ≠ id := by
          rintro rfl
          rw [hrooms] at hyx
          simp at hyx
        exact Or.inr ⟨by rw [hroles x hxid]; exact hnone,
          (hmem x y).2 (Or.inr ⟨hxid, hyx⟩)⟩

theorem inbox_onDisconnecting (engine : EngineReply) (s : Server) (d k : String) :
    ∀ e ∈ inbox engine (onDisconnecting s d) k, e = .peerLeft d := by
  intro e he
  obtain ⟨m, hm, rfl⟩ := (mem_inbox engine _ k e).1 he
  obtain ⟨rfl, -, -⟩ := (mem_onDisconnecting s d k m).1 hm
  rfl

theorem sysinv_disconnect (MAX_PARTICIPANTS : Int) (sys : System) (d : String)
    (h : SysInv sys) : SysInv (System.step MAX_PARTICIPANTS sys (.disconnect d)) := by
  by_cases hd : sys.server.sockets d = none
  · refine sysinv_same sys _ ?_ ?_ h
    · simp [System.step, Server.step, hd]
    · funext k
      simp only [System.step, Server.step, hd, if_true, deliver, System.roles, upd]
      split_ifs with hk
      · subst hk
        exact ((h.conn k).2 hd).symm
      · rfl
  · have hstep : System.step MAX_PARTICIPANTS sys (.disconnect d)
        = System.mk (leaveAll sys.server d)
            (deliver { setRemoteOk := true, answer := none, setLocalOk := true }
              (upd sys.clients d none) (onDisconnecting sys.server d)) := by
      simp [System.step, Server.step, hd, onDisconnect]
    rw [hstep]
    have hroles : ∀ k, System.roles (System.mk (leaveAll sys.server d)
          (deliver { setRemoteOk := true, answer := none, setLocalOk := true }
            (upd sys.clients d none) (onDisconnecting sys.server d))) k
        = if k = d then none else (sys.roles k).map (fun ρ x =>
            if x = d ∧ inbox { setRemoteOk := true, answer := none, setLocalOk := true }
              (onDisconnecting sys.server d) k ≠ [] then none else ρ x) := by
      intro k
      simp only [System.roles]
      rw [roles_deliver]
      by_cases hk : k = d
      · subst hk
        simp [upd_same]
      · rw [upd_other _ _ _ _ hk, if_neg hk]
        cases hck : sys.clients k with
        | none => rfl
        | some ck =>
          simp only [Option.map_some', Option.some.injEq]
          funext x
          exact roleOf_run_peerLeft d _ ck x (inbox_onDisconnecting _ _ d k)
    have hmem : ∀ r x, x ∈ (leaveAll sys.server d).rooms r ↔ x ∈ sys.server.rooms r ∧ x ≠ d :=
      fun r x => mem_rooms_leaveAll sys.server h.cons d r x
    have hsk : ∀ x, (leaveAll sys.server d).sockets x
        = if x = d then none else sys.server.sockets x := by
      intro x
      simp [leaveAll, upd]
    constructor
    · exact consistent_leaveAll sys.server d h.cons
    · intro x
      rw [hroles, hsk]
      by_cases hx : x = d
      · simp [hx]
      · simp only [if_neg hx, Option.map_eq_none']
        exact h.conn x
    · intro r x hx
      obtain ⟨hx1, hx2⟩ := (hmem r x).1 hx
      rw [hsk, if_neg hx2]
      exact h.members r x hx1
    · intro y ρy x b hy hb
      rw [hroles] at hy
      have hyd : y ≠ d := by
        rintro rfl
        simp at hy
      rw [if_neg hyd] at hy
      cases hρ : sys.roles y with
      | none => rw [hρ] at hy; cases hy
      | some ρ =>
        rw [hρ] at hy
        simp only [Option.map_some', Option.some.injEq] at hy
        subst hy
        dsimp only at hb
        by_cases hxd : x = d
        · -- the record is for the socket that leaves
          subst hxd
          simp only [true_and] at hb
          by_cases hin : inbox { setRemoteOk := true, answer := none, setLocalOk := true }
              (onDisconnecting sys.server x) y = []
          · rw [if_neg (fun hne => hne hin)] at hb
            obtain ⟨hxy, hcase⟩ := h.records y ρ x b hρ hb
            refine ⟨hxy, Or.inr ⟨by rw [hroles]; simp, ?_⟩⟩
            rcases hcase with ⟨ρx, -, -, r, hxr, hyr⟩ | ⟨-, hyx⟩
            · by_cases hrx : r = x
              · subst hrx
                exact (hmem r y).2 ⟨hyr, hyd⟩
              · exfalso
                have := (inbox_eq_nil_iff _ _ y).1 hin (.peerLeft x)
                exact this ((mem_onDisconnecting sys.server x y _).2
                  ⟨rfl, hyd, r, hrx, (h.cons r x).1 hxr, hyr⟩)
            · exact (hmem x y).2 ⟨hyx, hyd⟩
          · rw [if_pos hin] at hb
            cases hb
        · rw [if_neg (fun hc => hxd hc.1)] at hb
          obtain ⟨hxy, hcase⟩ := h.records y ρ x b hρ hb
          refine ⟨hxy, ?_⟩
          rcases hcase with ⟨ρx, hρx, hρxy, r, hxr, hyr⟩ | ⟨hnone, hyx⟩
          · refine Or.inl ⟨fun z => if z = d ∧
                inbox { setRemoteOk := true, answer := none, setLocalOk := true }
                  (onDisconnecting sys.server d) x ≠ [] then none else ρx z,
              ?_, ?_, r, (hmem r x).2 ⟨hxr, hxd⟩, (hmem r y).2 ⟨hyr, hyd⟩⟩
            · rw [hroles, if_neg hxd, hρx]
              rfl
            · simp only [hyd, false_and, if_false]
              exact hρxy
          · refine Or.inr ⟨?_, (hmem x y).2 ⟨hyx, hyd⟩⟩
            rw [hroles, if_neg hxd, hnone]
            rfl

theorem inbox_broadcast (engine : EngineReply) (xs : List String) (m : ServerMsg)
    (k : String) :
    (∀ e ∈ inbox engine (xs.map (fun id => (id, m))) k, e = m.toEvent engine)
      ∧ (inbox engine (xs.map (fun id => (id, m))) k ≠ [] ↔ k ∈ xs) := by
  constructor
  · intro e he
    obtain ⟨m2, hm, rfl⟩ := (mem_inbox engine _ k e).1 he
    simp only [List.mem_map, Prod.mk.injEq] at hm
    obtain ⟨a, -, -, rfl⟩ := hm
    rfl
  · rw [Ne, inbox_eq_nil_iff]
    constructor
    · intro h
      by_contra hk
      apply h
      intro m2 hm
      simp only [List.mem_map, Prod.mk.injEq] at hm
      obtain ⟨a, ha, rfl, -⟩ := hm
      exact hk ha
    · intro hk h
      exact h m (List.mem_map.2 ⟨k, hk, rfl⟩)

theorem onJoin_accept_server (MAX_PARTICIPANTS : Int) (s : Server) (c roomId name : String)
    (hroom : roomId ≠ "") (hfree : (getRoomSize s roomId : Int) < MAX_PARTICIPANTS) :
    (∀ r x, x ∈ (onJoin MAX_PARTICIPANTS s c roomId name).1.rooms r
        ↔ x ∈ s.rooms r ∨ (r = roomId ∧ x = c))
      ∧ (∀ x, (onJoin MAX_PARTICIPANTS s c roomId name).1.sockets x
        = if x = c then some { name := some (displayName name) } else s.sockets x)
      ∧ (Consistent s → Consistent (onJoin MAX_PARTICIPANTS s c roomId name).1) := by
  have hfree2 : ¬ ((getRoomSize s roomId : Int) ≥ MAX_PARTICIPANTS) := by omega
  simp only [onJoin, if_neg hroom, if_neg hfree2]
  refine ⟨?_, ?_, ?_⟩
  · intro r x
    by_cases hr : r = roomId
    · subst hr
      simp [socketJoin, upd, mem_setAdd]
    · simp [socketJoin, upd, hr]
  · intro x
    simp [socketJoin, upd]
  · intro hs
    exact consistent_socketJoin s c roomId hs

/-- The roles after an accepted join: the joiner becomes Initiator toward every other
member it held no record for, every other member that held no record for the joiner
becomes Responder toward it, and nothing else changes. -/
theorem join_roles (MAX_PARTICIPANTS : Int) (sys : System) (c roomId name : String)
    (cc : MeshRTC) (hc : sys.server.sockets c ≠ none) (hroom : roomId ≠ "")
    (hfree : (getRoomSize sys.server roomId : Int) < MAX_PARTICIPANTS)
    (hcc : sys.clients c = some cc) :
    (System.step MAX_PARTICIPANTS sys (.join c roomId name)).server
        = (onJoin MAX_PARTICIPANTS sys.server c roomId name).1
      ∧ (System.step MAX_PARTICIPANTS sys (.join c roomId name)).roles c
        = some (fun x => if cc.roleOf x = none
            ∧ x ∈ (sys.server.rooms roomId).filter (fun id => id != c)
            then some true else cc.roleOf x)
      ∧ ∀ k, k ≠ c → (System.step MAX_PARTICIPANTS sys (.join c roomId name)).roles k
        = (sys.roles k).map (fun ρ x => if x = c ∧ ρ c = none
            ∧ k ∈ (sys.server.rooms roomId).filter (fun id => id != c)
            then some false else ρ x) := by
  obtain ⟨L, hL, hstep⟩ := system_join_accept MAX_PARTICIPANTS sys c roomId name cc hc hroom
    hfree hcc
  rw [hstep]
  refine ⟨rfl, ?_, ?_⟩
  · simp only [System.roles]
    rw [roles_deliver, upd_same]
    have hnil : inbox { setRemoteOk := true, answer := none, setLocalOk := true }
        (((sys.server.rooms roomId).filter (fun id => id != c)).map
          (fun id => (id, ServerMsg.peerJoined c (displayName name)))) c = [] := by
      by_contra hne
      have := (inbox_broadcast _ _ _ c).2.1 hne
      simp at this
    simp only [hnil, Option.map_some', Option.some.injEq]
    funext x
    show ((cc.join roomId name).step (.peers L)).roleOf x = _
    rw [roleOf_onPeers, hL]
    rfl
  · intro k hk
    simp only [System.roles]
    rw [roles_deliver, upd_other _ _ _ _ hk]
    cases hck : sys.clients k with
    | none => rfl
    | some ck =>
      simp only [Option.map_some', Option.some.injEq]
      funext x
      have hb := inbox_broadcast { setRemoteOk := true, answer := none, setLocalOk := true }
        ((sys.server.rooms roomId).filter (fun id => id != c))
        (ServerMsg.peerJoined c (displayName name)) k
      rw [roleOf_run_peerJoined c (some (displayName name)) _ ck x hb.1]
      exact if_congr (and_congr Iff.rfl (and_congr Iff.rfl hb.2)) rfl rfl

theorem roles_unique (sys : System) (k : String) (ρ1 ρ2 : String → Option Bool)
    (h1 : sys.roles k = some ρ1) (h2 : sys.roles k = some ρ2) : ρ1 = ρ2 := by
  rw [h1] at h2
  exact Option.some.inj h2

/-- Under the invariant, two connected clients hold a record for each other or neither
does. -/
theorem no_record_of_none (sys : System) (h : SysInv sys) (y x : String)
    (ρy ρx : String → Option Bool) (hy : sys.roles y = some ρy) (hx : sys.roles x = some ρx)
    (hnone : ρy x = none) : ρx y = none := by
  cases hb : ρx y with
  | none => rfl
  | some b =>
    obtain ⟨-, hcase⟩ := h.records x ρx y b hx hb
    rcases hcase with ⟨ρ, hρ, hρx, -⟩ | ⟨hn, -⟩
    · rw [roles_unique sys y ρ ρy hρ hy, hnone] at hρx
      cases hρx
    · rw [hy] at hn
      cases hn

theorem sysinv_join (MAX_PARTICIPANTS : Int) (sys : System) (c roomId name : String)
    (h : SysInv sys) : SysInv (System.step MAX_PARTICIPANTS sys (.join c roomId name)) := by
  cases hcc : sys.clients c with
  | none =>
    simp only [System.step, hcc]
    exact h
  | some cc =>
    have hrc : sys.roles c = some cc.roleOf := by simp [System.roles, hcc]
    have hc : sys.server.sockets c ≠ none := by
      intro hn
      rw [(h.conn c).2 hn] at hrc
      cases hrc
    by_cases hacc : roomId ≠ "" ∧ (getRoomSize sys.server roomId : Int) < MAX_PARTICIPANTS
    swap
    · -- the join is refused: one notice to the requester
      have hout : (Server.step MAX_PARTICIPANTS sys.server (.join c roomId name)).1 = sys.server
          ∧ ∀ p ∈ (Server.step MAX_PARTICIPANTS sys.server (.join c roomId name)).2,
              (p.2.toEvent { setRemoteOk := true, answer := none, setLocalOk := true }).keepsRoles
                = true := by
        simp only [Server.step, if_neg hc, onJoin]
        by_cases hroom : roomId = ""
        · simp [hroom, emitTo, ServerMsg.toEvent, ClientEvent.keepsRoles]
        · have hfull : (getRoomSize sys.server roomId : Int) ≥ MAX_PARTICIPANTS := by
            by_contra hlt
            exact hacc ⟨hroom, by omega⟩
          simp [hroom, hfull, emitTo, ServerMsg.toEvent, ClientEvent.keepsRoles]
      refine sysinv_same sys _ ?_ ?_ h
      · simp only [System.step, hcc]
        exact hout.1
      · funext k
        simp only [System.step, hcc, System.roles]
        rw [roles_deliver_keeps _ _ _ _ hout.2]
        by_cases hk : k = c
        · subst hk
          rw [upd_same, hcc]
          rfl
        · rw [upd_other _ _ _ _ hk]
    · obtain ⟨hroom, hfree⟩ := hacc
      obtain ⟨hsrv, hrolec, hrolek⟩ := join_roles MAX_PARTICIPANTS sys c roomId name cc hc
        hroom hfree hcc
      obtain ⟨hmem, hsk, hcons⟩ := onJoin_accept_server MAX_PARTICIPANTS sys.server c roomId
        name hroom hfree
      have hP : ∀ x, x ∈ (sys.server.rooms roomId).filter (fun id => id != c)
          ↔ x ∈ sys.server.rooms roomId ∧ x ≠ c := by
        intro x
        simp [List.mem_filter]
      have hsub : ∀ r x, x ∈ sys.server.rooms r →
          x ∈ (System.step MAX_PARTICIPANTS sys (.join c roomId name)).server.rooms r := by
        intro r x hx
        rw [hsrv]
        exact (hmem r x).2 (Or.inl hx)
      have hcin : c ∈ (System.step MAX_PARTICIPANTS sys (.join c roomId name)).server.rooms
          roomId := by
        rw [hsrv]
        exact (hmem roomId c).2 (Or.inr ⟨rfl, rfl⟩)
      have hnone : ∀ x, x ≠ c → sys.roles x = none →
          (System.step MAX_PARTICIPANTS sys (.join c roomId name)).roles x = none := by
        intro x hx hn
        rw [hrolek x hx, hn]
        rfl
      constructor
      · rw [hsrv]
        exact hcons h.cons
      · intro x
        rw [hsrv, hsk]
        by_cases hx : x = c
        · subst hx
          simp [hrolec]
        · rw [hrolek x hx, if_neg hx, Option.map_eq_none']
          exact h.conn x
      · intro r x hx
        rw [hsrv] at hx ⊢
        rw [hsk]
        split_ifs with hxc
        · simp
        · rcases (hmem r x).1 hx with hx1 | ⟨-, hx1⟩
          · exact h.members r x hx1
          · exact absurd hx1 hxc
      · intro y ρy x b hy hb
        by_cases hyc : y = c
        · -- a record held by the joiner
          subst hyc
          rw [hrolec] at hy
          have hρ := Option.some.inj hy
          subst hρ
          dsimp only at hb
          by_cases hnew : cc.roleOf x = none
              ∧ x ∈ (sys.server.rooms roomId).filter (fun id => id != y)
          · rw [if_pos hnew] at hb
            have hbt : b = true := (Option.some.inj hb).symm
            subst hbt
            obtain ⟨hxr, hxy⟩ := (hP x).1 hnew.2
            refine ⟨hxy, Or.inl ?_⟩
            cases hρx : sys.roles x with
            | none =>
              exact absurd ((h.conn x).1 hρx) (h.members roomId x hxr)
            | some ρx =>
              have hxnone : ρx y = none :=
                no_record_of_none sys h y x cc.roleOf ρx hrc hρx hnew.1
              refine ⟨_, by rw [hrolek x hxy, hρx]; rfl, ?_, roomId, hsub roomId x hxr, hcin⟩
              simp [hxnone, hnew.2]
          · rw [if_neg hnew] at hb
            obtain ⟨hxy, hcase⟩ := h.records y cc.roleOf x b hrc hb
            refine ⟨hxy, ?_⟩
            rcases hcase with ⟨ρx, hρx, hρxy, r, hxr, hyr⟩ | ⟨hn, hyx⟩
            · refine Or.inl ⟨_, by rw [hrolek x hxy, hρx]; rfl, ?_, r, hsub r x hxr,
                hsub r y hyr⟩
              simp [hρxy]
            · exact Or.inr ⟨hnone x hxy hn, hsub x y hyx⟩
        · -- a record held by another client
          rw [hrolek y hyc] at hy
          cases hρ : sys.roles y with
          | none => rw [hρ] at hy; cases hy
          | some ρ =>
            rw [hρ] at hy
            simp only [Option.map_some', Option.some.injEq] at hy
            subst hy
            dsimp only at hb
            by_cases hnew : x = c ∧ ρ c = none
                ∧ y ∈ (sys.server.rooms roomId).filter (fun id => id != c)
            · rw [if_pos hnew] at hb
              have hbf : b = false := (Option.some.inj hb).symm
              subst hbf
              obtain ⟨hxc, hρc, hyP⟩ := hnew
              subst hxc
              obtain ⟨hyr, -⟩ := (hP y).1 hyP
              have hcnone : cc.roleOf y = none :=
                no_record_of_none sys h y x ρ cc.roleOf hρ hrc hρc
              refine ⟨Ne.symm hyc, Or.inl ⟨_, hrolec, ?_, roomId, hcin, hsub roomId y hyr⟩⟩
              simp [hcnone, hyP]
            · rw [if_neg hnew] at hb
              obtain ⟨hxy, hcase⟩ := h.records y ρ x b hρ hb
              refine ⟨hxy, ?_⟩
              rcases hcase with ⟨ρx, hρx, hρxy, r, hxr, hyr⟩ | ⟨hn, hyx⟩
              · by_cases hxc : x = c
                · subst hxc
                  have := roles_unique sys x ρx cc.roleOf hρx hrc
                  subst this
                  refine Or.inl ⟨_, hrolec, ?_, r, hsub r x hxr, hsub r y hyr⟩
                  simp [hρxy]
                · refine Or.inl ⟨_, by rw [hrolek x hxc, hρx]; rfl, ?_, r, hsub r x hxr,
                    hsub r y hyr⟩
                  simp [hyc, hρxy]
              · have hxc : x ≠ c := by
                  rintro rfl
                  rw [hrc] at hn
                  cases hn
                exact Or.inr ⟨hnone x hxc hn, hsub x y hyx⟩

theorem sysinv_step (MAX_PARTICIPANTS : Int) (sys : System) (e : SystemEvent)
    (he : e.oneSidedClose = false) (h : SysInv sys) :
    SysInv (System.step MAX_PARTICIPANTS sys e) := by
  cases e with
  | connect id ls a b c => exact sysinv_connect MAX_PARTICIPANTS sys id ls a b c h
  | join id roomId name => exact sysinv_join MAX_PARTICIPANTS sys id roomId name h
  | signal id req engine => exact sysinv_signal MAX_PARTICIPANTS sys id req engine h
  | transport id e => exact sysinv_transport MAX_PARTICIPANTS sys id e he h
  | disconnect id => exact sysinv_disconnect MAX_PARTICIPANTS sys id h

theorem sysinv_run (MAX_PARTICIPANTS : Int) (evs : List SystemEvent) (sys : System)
    (hev : ∀ e ∈ evs, e.oneSidedClose = false) (h : SysInv sys) :
    SysInv (System.run MAX_PARTICIPANTS sys evs) := by
  induction evs generalizing sys with
  | nil => exact h
  | cons e evs ih =>
    exact ih _ (fun e2 he2 => hev e2 (List.mem_cons_of_mem _ he2))
      (sysinv_step MAX_PARTICIPANTS sys e (hev e (List.mem_cons_self _ _)) h)

theorem roleOf_eq_roles (sys : System) (a b : String) :
    sys.roleOf a b = (sys.roles a).bind (fun ρ => ρ b) := by
  unfold System.roleOf System.roles
  cases sys.clients a <;> rfl

/-- Under the invariant, two clients that hold a record for each other hold records of
opposite roles. -/
theorem sysinv_opposite (sys : System) (h : SysInv sys) (a b : String) (ra rb : Bool)
    (ha : sys.roleOf a b = some ra) (hb : sys.roleOf b a = some rb) : ra = !rb := by
  rw [roleOf_eq_roles] at ha hb
  cases hρa : sys.roles a with
  | none => rw [hρa] at ha; cases ha
  | some ρa =>
    cases hρb : sys.roles b with
    | none => rw [hρb] at hb; cases hb
    | some ρb =>
      rw [hρa] at ha
      rw [hρb] at hb
      simp only [Option.some_bind] at ha hb
      obtain ⟨-, hcase⟩ := h.records b ρb a rb hρb hb
      rcases hcase with ⟨ρ, hρ, hρb2, -⟩ | ⟨hn, -⟩
      · rw [roles_unique sys a ρ ρa hρ hρa, ha] at hρb2
        exact Option.some.inj hρb2
      · rw [hρa] at hn
        cases hn

/-- C6, amended. Role assignment: a client that holds no record for a peer creates one as
Initiator when the peer is listed in a `peers` snapshot and as Responder when the peer is
announced by `peer-joined`, and a record it already holds is kept as it is. Consequently,
in every state reached from the empty system by connects, joins, relayed signals,
transport events and disconnects among which no client closes a record on its own (no
connection reports `failed`, `disconnected` or `closed`), two connections `A` and `B`
that each hold a record for the other hold exactly one Initiator record between them. -/
theorem role_assignment (MAX_PARTICIPANTS : Int) (evs : List SystemEvent)
    (hev : ∀ e ∈ evs, e.oneSidedClose = false) (A B : String) (ra rb : Bool)
    (hA : (System.run MAX_PARTICIPANTS System.init evs).roleOf A B = some ra)
    (hB : (System.run MAX_PARTICIPANTS System.init evs).roleOf B A = some rb) :
    (∀ (s : MeshRTC) (list : List (String × Option String)) (id : String),
        id ∈ list.map Prod.fst → s.roleOf id = none →
        (s.step (.peers list)).roleOf id = some true)
      ∧ (∀ (s : MeshRTC) (id : String) (n : Option String), s.roleOf id = none →
        (s.step (.peerJoined id n)).roleOf id = some false)
      ∧ (∀ (s : MeshRTC) (list : List (String × Option String)) (id k : String)
          (n : Option String) (pc : PeerConnection), s.peers.get k = some pc →
        (s.step (.peers list)).peers.get k = some pc
          ∧ (s.step (.peerJoined id n)).peers.get k = some pc)
      ∧ ra = !rb := by
  refine ⟨?_, ?_, ?_, ?_⟩
  · intro s list id hid hnone
    rw [roleOf_onPeers, if_pos ⟨hnone, hid⟩]
  · intro s id n hnone
    rw [roleOf_peerJoined, if_pos ⟨rfl, hnone⟩]
  · intro s list id k n pc h
    exact ⟨onPeers_get_old list s k pc h, onPeerJoinedMsg_get_old s id k n pc h⟩
  · exact sysinv_opposite _ (sysinv_run MAX_PARTICIPANTS evs _ hev sysinv_init) A B ra rb hA hB

/-- Two clients that meet in "r1" and again in "r2": the roles of C6 as amended. -/
theorem role_assignment_witness :
    ((∀ e ∈ twoPartyJoin "A" "B" "r1" "alice" "bob" none none false false false false false
          false ++ [SystemEvent.join "A" "r2" "alice", SystemEvent.join "B" "r2" "bob"],
        e.oneSidedClose = false)
      ∧ (System.run 4 System.init
          (twoPartyJoin "A" "B" "r1" "alice" "bob" none none false false false false false false
            ++ [SystemEvent.join "A" "r2" "alice", SystemEvent.join "B" "r2" "bob"])).roleOf
          "A" "B" = some false
      ∧ (System.run 4 System.init
          (twoPartyJoin "A" "B" "r1" "alice" "bob" none none false false false false false false
            ++ [SystemEvent.join "A" "r2" "alice", SystemEvent.join "B" "r2" "bob"])).roleOf
          "B" "A" = some true)
    ∧ ((∀ (s : MeshRTC) (list : List (String × Option String)) (id : String),
        id ∈ list.map Prod.fst → s.roleOf id = none →
        (s.step (.peers list)).roleOf id = some true)
      ∧ (∀ (s : MeshRTC) (id : String) (n : Option String), s.roleOf id = none →
        (s.step (.peerJoined id n)).roleOf id = some false)
      ∧ (∀ (s : MeshRTC) (list : List (String × Option String)) (id k : String)
          (n : Option String) (pc : PeerConnection), s.peers.get k = some pc →
        (s.step (.peers list)).peers.get k = some pc
          ∧ (s.step (.peerJoined id n)).peers.get k = some pc)
      ∧ false = !true) :=
  ⟨⟨by decide, by decide, by decide⟩,
    role_assignment 4
      (twoPartyJoin "A" "B" "r1" "alice" "bob" none none false false false false false false
        ++ [SystemEvent.join "A" "r2" "alice", SystemEvent.join "B" "r2" "bob"])
      (by decide) "A" "B" false true (by decide) (by decide)⟩

/-! ## Closing twice -/

/-- Closing a peer the orchestrator holds nothing at all for leaves the state as it is. -/
theorem closePeer_fixed (t : MeshRTC) (id : String) (hp : t.peers.get id = none)
    (hd : t.dataChannels.get id = none) (hc : t.candidateBuffer.get id = none) :
    t._closePeer id = t := by
  rw [closePeer_of_absent t id hp hd, JsMap.delete_of_get_none _ _ hc]

theorem closePeer_onPeerLeft (s : MeshRTC) (id : String) :
    (s._closePeer id).onPeerLeft = s.onPeerLeft := by
  unfold MeshRTC._closePeer
  cases h1 : s.peers.get id <;> cases h2 : s.dataChannels.get id <;> simp [MeshRTC.call, h2]

/-- The state after a `peer-left` notice holds nothing for the peer it named. -/
theorem peerLeft_absent (s : MeshRTC) (id : String) :
    (s.step (.peerLeft id)).peers.get id = none
      ∧ (s.step (.peerLeft id)).dataChannels.get id = none
      ∧ (s.step (.peerLeft id)).candidateBuffer.get id = none
      ∧ (s.step (.peerLeft id)).onPeerLeft = s.onPeerLeft := by
  have hp : (s._closePeer id).peers.get id = none := by
    rw [closePeer_peers]; exact JsMap.get_delete_same _ _
  have hd : (s._closePeer id).dataChannels.get id = none := by
    rw [closePeer_dataChannels]; exact JsMap.get_delete_same _ _
  have hc : (s._closePeer id).candidateBuffer.get id = none := by
    rw [closePeer_candidateBuffer]; exact JsMap.get_delete_same _ _
  have hf := closePeer_onPeerLeft s id
  simp only [MeshRTC.step, MeshRTC.onPeerLeftMsg]
  split_ifs
  · exact ⟨hp, hd, hc, hf⟩
  · exact ⟨hp, hd, hc, hf⟩

/-- C8, as stated, fails on the `peer-left` path. With an `onPeerLeft` callback supplied, a
client that knows "B" and handles two `peer-left` notices for it calls `onPeerLeft("B")`
twice, where one notice gives one call; and the relay does send two: when "B", who shares
the rooms "r1" and "r2" with "A", disconnects, "A" ends with two `onPeerLeft("B")` calls
and a single `pc.close()`. -/
theorem close_twice_notifies_twice_counterexample :
    (((MeshRTC.new none false true false).run
        [.peerJoined "B" (some "bob"), .peerLeft "B"]).log.count (.onPeerLeft "B") = 1
      ∧ ((MeshRTC.new none false true false).run
        [.peerJoined "B" (some "bob"), .peerLeft "B", .peerLeft "B"]).log.count
          (.onPeerLeft "B") = 2)
    ∧ ((System.run 4 System.init
        (twoPartyJoin "A" "B" "r1" "alice" "bob" none none false true false false false false
          ++ [.join "A" "r2" "alice", .join "B" "r2" "bob", .disconnect "B"])).logOf "A").count
          (.onPeerLeft "B") = 2
    ∧ ((System.run 4 System.init
        (twoPartyJoin "A" "B" "r1" "alice" "bob" none none false true false false false false
          ++ [.join "A" "r2" "alice", .join "B" "r2" "bob", .disconnect "B"])).logOf "A").count
          (.pcClose 0) = 1 := by
  decide

/-- C8, amended. Close idempotence: in every orchestrator state and for every peer id, a
second `_closePeer(id)` leaves the whole state as the first left it (the three maps
unchanged, no further call made), `_closePeer` only ever calls `pc.close()` and
`dc.close()` and never the consumer, and handling a second `peer-left` notice for the same
id changes nothing and closes nothing further but, when an `onPeerLeft` callback was
supplied, calls it once more. -/
theorem close_idempotence (s : MeshRTC) (id : String) :
    (s._closePeer id)._closePeer id = s._closePeer id
      ∧ (s._closePeer id).log = s.log ++ s.closeCalls id
      ∧ (∀ e ∈ s.closeCalls id, (∃ h, e = .pcClose h) ∨ (∃ c, e = .dcClose c))
      ∧ (s.step (.peerLeft id)).step (.peerLeft id)
        = if s.onPeerLeft then (s.step (.peerLeft id)).call [.onPeerLeft id]
          else s.step (.peerLeft id) := by
  refine ⟨closePeer_idempotent s id, closePeer_log s id, ?_, ?_⟩
  · intro e he
    unfold MeshRTC.closeCalls at he
    cases h1 : s.peers.get id <;> cases h2 : s.dataChannels.get id <;>
      simp [h1, h2] at he
    · exact Or.inr ⟨_, he⟩
    · exact Or.inl ⟨_, he⟩
    · rcases he with he | he
      · exact Or.inl ⟨_, he⟩
      · exact Or.inr ⟨_, he⟩
  · obtain ⟨hp, hd, hc, hf⟩ := peerLeft_absent s id
    generalize s.step (.peerLeft id) = t at hp hd hc hf
    simp only [MeshRTC.step, MeshRTC.onPeerLeftMsg, closePeer_fixed t id hp hd hc, hf]

end Mesh
